import Mathlib

/-!
# poddl: the download orchestrator of `src/main.cpp`

A shallow embedding of `main` (src/main.cpp, lines 70-266): the option checks,
the directory creation, the feed fetch, the range selection, the naming policy,
the per-episode loop (stop / skip / download / move / sidecar) and the scratch
directory cleanup.

`main.cpp` includes `poddl.hpp`, so the types `Podcast`, `Options`, the range
record and the collaborators `Helper`, `FileSystem`, `Client` and `Parser` are
declared outside this file.  They are modelled from the specification, each
under a doc comment saying so.  What the filesystem state does not determine
comes from an `Env` record of arbitrary functions: which file the operating
system reaches through a path (`resolve`), whether a stream can be opened,
whether a download succeeds and what bytes arrive, whether a directory can be
created, whether a rename succeeds.  Every general theorem holds for every such
behaviour.  The filesystem is keyed by resolved names, never by the spelling of
a path.  The embedding follows the branch compiled when `_WIN32` is not
defined; the other branch differs only in the string type of the paths.
Console output (`std::cout`) and the display counter `count` are not modelled.
-/

namespace Poddl

/-! ## Data model -/

/-- Modelled from the spec: the `Podcast` record (declared in `poddl.hpp`),
with the fields `main` reads: `number`, `title`, `url`, `ext`, `meta`. -/
structure Podcast where
  number : Nat
  title : String
  url : String
  ext : String
  meta : String
  deriving DecidableEq, Repr

/-- Modelled from the spec: one element of `options.episodes`, the record
`{start, end}` of inclusive episode numbers; an absent `end` means "to the last
episode". -/
structure Range where
  start : Nat
  end_ : Option Nat
  deriving DecidableEq, Repr

/-- Modelled from the spec: the option bundle returned by `Helper::get_options`
(declared in `poddl.hpp`), with the fields `main` reads. -/
structure Options where
  url : String
  path : String
  list_only : Bool
  newest_first : Bool
  reverse_numbers : Bool
  short_names : Bool
  append_episode_nr : Bool
  zero_padded_episode_nr : Nat
  episodes : List Range
  stop_when_file_found : Bool
  stop_when_file_found_string : String
  add_meta : Bool
  deriving DecidableEq, Repr

/-- Modelled from the spec: the three ordering constants of `Parser`
(`Parser::REVERSE_WITH_NUMBERS`, `Parser::NOT_REVERSE`,
`Parser::SIMPLE_REVERSE`). -/
inductive ReverseType where
  | REVERSE_WITH_NUMBERS
  | NOT_REVERSE
  | SIMPLE_REVERSE
  deriving DecidableEq, Repr

/-! ## The filesystem state -/

/-- Modelled from the spec: the explicit filesystem state behind the
`FileSystem` collaborator and `std::ofstream`: the regular files (resolved name
and content) and the directories (resolved names).  A resolved name stands for
one file on disk, however a path to it is spelled. -/
structure FS where
  files : List (String × String)
  dirs : List String
  deriving DecidableEq, Repr

/-- Whether the entry with resolved name `q` lies inside the directory with
resolved name `d`: among resolved names, the names under `d` start with `d/`. -/
def in_directory (d q : String) : Bool :=
  (d ++ "/").data.isPrefixOf q.data

/-- Whether a regular file has the resolved name `k`. -/
def is_file (fs : FS) (k : String) : Bool :=
  fs.files.any (fun f => f.1 == k)

/-- Whether something, a file or a directory, has the resolved name `k`. -/
def has_entry (fs : FS) (k : String) : Bool :=
  is_file fs k || fs.dirs.contains k

/-- The content of the regular file with resolved name `k`, if there is one. -/
def read_file (fs : FS) (k : String) : Option String :=
  (fs.files.find? (fun f => f.1 == k)).map Prod.snd

/-- Create or overwrite the regular file with resolved name `k`, with content
`c`. -/
def write_file (fs : FS) (k c : String) : FS :=
  { fs with files := (k, c) :: fs.files.filter (fun f => f.1 != k) }

/-- Remove the regular file with resolved name `k`. -/
def remove_file (fs : FS) (k : String) : FS :=
  { fs with files := fs.files.filter (fun f => f.1 != k) }

/-- Whether the directory with resolved name `d` exists and nothing, neither a
file nor a directory, lies inside. -/
def is_empty_directory (fs : FS) (d : String) : Bool :=
  fs.dirs.contains d
    && fs.files.all (fun f => !in_directory d f.1)
    && fs.dirs.all (fun x => !in_directory d x)

/-- Remove the directory with resolved name `d`. -/
def remove_directory (fs : FS) (d : String) : FS :=
  { fs with dirs := fs.dirs.filter (fun x => x != d) }

/-! ## Effects -/

/-- One call of `main` to a collaborator that acts on the world, with its
arguments as `main` spells them and its answer. -/
inductive Event where
  | create_directory (path : String) (ok : Bool)
  | get_string_stream (url : String) (xml : Option String)
  | open_ofstream (path : String) (ok : Bool)
  | write_file_stream (url : String) (path : String) (ok : Bool)
  | move_file (src : String) (dst : String) (ok : Bool)
  | write_meta (path : String) (ok : Bool)
  | directory_is_empty (path : String) (empty : Bool)
  | delete_directory (path : String)
  deriving DecidableEq, Repr

/-- The world `main` runs in: the filesystem and the chronological log of the
collaborator calls made so far. -/
structure World where
  fs : FS
  log : List Event
  deriving DecidableEq, Repr

/-- Append one event to the log. -/
def World.record (w : World) (e : Event) : World :=
  { w with log := w.log ++ [e] }

/-- The behaviour of the operating system and of the collaborators that the
filesystem state does not determine.  Each answer but `resolve` and `get_items`
may depend on the whole current world, hence on everything that happened before.
* `resolve`: the resolved name of the file the operating system reaches through
  a path as `main` spells it (`p/./a` and `p/a` resolve alike);
* `get_items`: `Parser::get_items`, the parsed, numbered episode list;
* `mkdir_ok`: whether creating a missing directory succeeds;
* `get_string_stream`: `Client::get_string_stream`, the feed text or failure;
* `open_ok`: whether `std::ofstream` can open the path for writing, for the
  scratch file of line 237 and the sidecar of line 249 (it cannot when the
  directory that holds the path is missing or not writable);
* `write_file_stream`: `Client::write_file_stream`, the success flag and the
  bytes handed to the sink;
* `move_ok`: whether renaming an existing file succeeds. -/
structure Env where
  resolve : String → String
  get_items : String → ReverseType → List Podcast
  mkdir_ok : World → String → Bool
  get_string_stream : World → String → Option String
  open_ok : World → String → Bool
  write_file_stream : World → String → Bool × String
  move_ok : World → String → String → Bool

/-! ## The `FileSystem` collaborator -/

/-- Modelled from the spec: `FileSystem::file_exists` (`exists(path) → bool`):
something, a file or a directory, is reached through the path. -/
def file_exists (env : Env) (fs : FS) (p : String) : Bool :=
  has_entry fs (env.resolve p)

/-- Modelled from the spec: `FileSystem::directory_is_empty`
(`isEmpty(dirPath) → bool`): the directory exists and nothing lies inside. -/
def directory_is_empty (env : Env) (fs : FS) (p : String) : Bool :=
  is_empty_directory fs (env.resolve p)

/-- Modelled from the spec: `FileSystem::delete_directory` (`deleteDir(path)`):
the directory is gone afterwards. -/
def delete_directory (env : Env) (fs : FS) (p : String) : FS :=
  remove_directory fs (env.resolve p)

/-- Modelled from the spec: `FileSystem::create_directory_if_not_exists`
(`createDirIfMissing(path) → bool`): true when the directory is already there
or could be created, and then it exists. -/
def create_directory_if_not_exists (env : Env) (w : World) (p : String) : Bool × World :=
  if w.fs.dirs.contains (env.resolve p) then
    (true, w.record (Event.create_directory p true))
  else if env.mkdir_ok w p then
    (true, { fs := { w.fs with dirs := env.resolve p :: w.fs.dirs },
             log := w.log ++ [Event.create_directory p true] })
  else
    (false, w.record (Event.create_directory p false))

/-- Modelled from the spec: `FileSystem::move_file` (`move(tempPath, finalPath)
→ bool`), an atomic move: it fails when no file is reached through `src`; on
success the content of `src` is at `dst` and `src` is gone; on failure the
filesystem is unchanged. -/
def move_file (env : Env) (w : World) (src dst : String) : Bool × World :=
  match read_file w.fs (env.resolve src) with
  | some c =>
    if env.move_ok w src dst then
      (true, { fs := write_file (remove_file w.fs (env.resolve src)) (env.resolve dst) c,
               log := w.log ++ [Event.move_file src dst true] })
    else
      (false, w.record (Event.move_file src dst false))
  | none => (false, w.record (Event.move_file src dst false))

/-! ## Helpers of `Helper` used by `main` -/

/-- Modelled from the spec: `Helper::get_subset(items, start, end)`: every
episode whose `number` falls within `[start, end]`, in the order of `items`;
an absent `end` is "to the last episode". -/
def get_subset (items : List Podcast) (start : Nat) (end_ : Option Nat) : List Podcast :=
  items.filter (fun p =>
    decide (start ≤ p.number) &&
      (match end_ with
       | some e => decide (p.number ≤ e)
       | none => true))

/-- Modelled from the spec: `Helper::get_zero_padded_number_string(number,
width)`: the decimal digits of the number, left-padded with `0` to the width. -/
def get_zero_padded_number_string (number width : Nat) : String :=
  String.mk (List.replicate (width - (toString number).length) '0') ++ toString number

/-- Modelled from the spec: `Helper::string_exists(input, search)`: the search
string occurs in the input as a substring. -/
def string_exists (input search : String) : Bool :=
  decide (search.data <:+: input.data)

/-! ## `main`, lines 150-164: range selection -/

/-- The `for (auto range : options.episodes)` loop of lines 154-162: the
subsets of the full list `items`, appended range after range. -/
def collect_subsets (items : List Podcast) : List Range → List Podcast
  | [] => []
  | range :: rest => get_subset items range.start range.end_ ++ collect_subsets items rest

/-- Lines 152-164: with at least one range the list is replaced by the
collected subsets, otherwise it is kept. -/
def select_items (options : Options) (items : List Podcast) : List Podcast :=
  if options.episodes.length > 0 then collect_subsets items options.episodes else items

/-! ## `main`, lines 187-213: naming and paths -/

/-- Lines 189-191: the episode number as text, padded when a width is set. -/
def index_str (options : Options) (item : Podcast) : String :=
  if options.zero_padded_episode_nr > 0 then
    get_zero_padded_number_string item.number options.zero_padded_episode_nr
  else
    toString item.number

/-- Lines 187-197: the base name `title` of the episode's files. -/
def base_name (options : Options) (item : Podcast) : String :=
  if options.short_names then index_str options item
  else if options.append_episode_nr then index_str options item ++ ". " ++ item.title
  else item.title

/-- Line 106: the scratch directory. -/
def temp_path (path : String) : String := path ++ "/tmp"

/-- Line 107: the extension of the sidecar. -/
def meta_ext : String := "txt"

/-- Line 207: the final media path. -/
def file_path (options : Options) (item : Podcast) : String :=
  options.path ++ "/" ++ base_name options item ++ "." ++ item.ext

/-- Line 208: the sidecar path. -/
def file_meta_path (options : Options) (item : Podcast) : String :=
  options.path ++ "/" ++ base_name options item ++ "." ++ meta_ext

/-- Line 209: the scratch path. -/
def temp_file_path (options : Options) (item : Podcast) : String :=
  temp_path options.path ++ "/" ++ base_name options item ++ "." ++ item.ext

/-! ## `main`, lines 177-259: the episode loop -/

/-- How one iteration of the `for` loop ends: it falls through or `continue`s
(`next`), it `break`s (`stop`), or it `return`s -1 (`abort`). -/
inductive Flow where
  | next
  | stop
  | abort
  deriving DecidableEq, Repr

/-- Lines 215-228: whether the stop policy breaks the loop at this episode. -/
def stop_triggers (env : Env) (options : Options) (item : Podcast) (fs : FS) : Bool :=
  if options.stop_when_file_found then
    if options.stop_when_file_found_string ≠ "" then
      string_exists (base_name options item) options.stop_when_file_found_string
    else
      file_exists env fs (file_path options item)
  else
    false

/-- Line 237: `std::ofstream fs(temp_file_path, binary)`.  When the stream can
be opened the scratch file is created, or truncated; when it cannot, nothing
changes, and `main` does not check. -/
def open_scratch (env : Env) (options : Options) (item : Podcast) (w : World) : World :=
  if env.open_ok w (temp_file_path options item) then
    { fs := write_file w.fs (env.resolve (temp_file_path options item)) "",
      log := w.log ++ [Event.open_ofstream (temp_file_path options item) true] }
  else
    w.record (Event.open_ofstream (temp_file_path options item) false)

/-- Line 240: the answer of `client.write_file_stream(item.url, fs)`: the
success flag and the bytes handed to the stream. -/
def stream_result (env : Env) (options : Options) (item : Podcast) (w : World) : Bool × String :=
  env.write_file_stream (open_scratch env options item w) item.url

/-- Lines 237-241: the world once the fetch has returned and the stream is
closed: the bytes are in the scratch file when the stream was open, and nowhere
when it was not. -/
def after_stream (env : Env) (options : Options) (item : Podcast) (w : World) : World :=
  { fs :=
      if env.open_ok w (temp_file_path options item) then
        write_file (open_scratch env options item w).fs
          (env.resolve (temp_file_path options item)) (stream_result env options item w).2
      else
        (open_scratch env options item w).fs,
    log := (open_scratch env options item w).log ++
            [Event.write_file_stream item.url (temp_file_path options item)
              (stream_result env options item w).1] }

/-- Lines 249-251: `std::ofstream fs_meta(file_meta_path, out)` and the write of
the episode's `meta` and a line end.  When the stream can be opened the sidecar
is created, or overwritten; when it cannot, nothing changes, and `main` does not
check. -/
def write_sidecar (env : Env) (options : Options) (item : Podcast) (w : World) : World :=
  if env.open_ok w (file_meta_path options item) then
    { fs := write_file w.fs (env.resolve (file_meta_path options item)) (item.meta ++ "\n"),
      log := w.log ++ [Event.write_meta (file_meta_path options item) true] }
  else
    w.record (Event.write_meta (file_meta_path options item) false)

/-- Lines 237-258: open the scratch file, stream into it, move it to the final
path and write the sidecar. -/
def download (env : Env) (options : Options) (item : Podcast) (w : World) : Flow × World :=
  if (stream_result env options item w).1 then
    -- line 243
    match move_file env (after_stream env options item w)
        (temp_file_path options item) (file_path options item) with
    | (false, w3) => (Flow.abort, w3)
    | (true, w3) =>
      -- lines 248-252
      if options.add_meta then (Flow.next, write_sidecar env options item w3)
      else (Flow.next, w3)
  else
    -- line 255
    (Flow.next, after_stream env options item w)

/-- Lines 177-258: the body of the loop for one episode. -/
def episode_step (env : Env) (options : Options) (item : Podcast) (w : World) : Flow × World :=
  if options.list_only then
    (Flow.next, w)
  else if stop_triggers env options item w.fs then
    (Flow.stop, w)
  else if file_exists env w.fs (file_path options item) then
    (Flow.next, w)
  else
    download env options item w

/-- Lines 177-259: `for (auto const& item : items)`.  The result is `next` when
the loop ran to the end of the list. -/
def episode_loop (env : Env) (options : Options) : List Podcast → World → Flow × World
  | [], w => (Flow.next, w)
  | item :: rest, w =>
    match episode_step env options item w with
    | (Flow.next, w1) => episode_loop env options rest w1
    | (Flow.stop, w1) => (Flow.stop, w1)
    | (Flow.abort, w1) => (Flow.abort, w1)

/-! ## `main` -/

/-- Lines 139-148: the ordering constant handed to the parser. -/
def reverse_type (options : Options) : ReverseType :=
  if options.reverse_numbers then ReverseType.REVERSE_WITH_NUMBERS
  else if options.newest_first then ReverseType.NOT_REVERSE
  else ReverseType.SIMPLE_REVERSE

/-- Lines 114-124: both directories are created unless `list_only`; `false`
when one of them could not be. -/
def create_directories (env : Env) (options : Options) (w : World) : Bool × World :=
  if !options.list_only then
    match create_directory_if_not_exists env w options.path with
    | (false, w1) => (false, w1)
    | (true, w1) =>
      match create_directory_if_not_exists env w1 (temp_path options.path) with
      | (false, w2) => (false, w2)
      | (true, w2) => (true, w2)
  else
    (true, w)

/-- Lines 76-172: everything before the loop.  `none` when `main` returns -1
there, otherwise the episode list handed to the loop. -/
def main_prelude (env : Env) (args_size : Nat) (options : Options) (w : World) :
    Option (List Podcast) × World :=
  if args_size = 0 then (none, w)
  else if options.url = "" ∨ (options.path = "" ∧ options.list_only = false) then (none, w)
  else
    match create_directories env options w with
    | (false, w1) => (none, w1)
    | (true, w1) =>
      match env.get_string_stream w1 options.url with
      | none => (none, w1.record (Event.get_string_stream options.url none))
      | some xml =>
        let w2 := w1.record (Event.get_string_stream options.url (some xml))
        let items := select_items options (env.get_items xml (reverse_type options))
        if items.length > 0 then (some items, w2) else (none, w2)

/-- Lines 261-263: the scratch directory is deleted when it is empty. -/
def cleanup (env : Env) (options : Options) (w : World) : World :=
  if directory_is_empty env w.fs (temp_path options.path) then
    { fs := delete_directory env w.fs (temp_path options.path),
      log := w.log ++ [Event.directory_is_empty (temp_path options.path) true,
                       Event.delete_directory (temp_path options.path)] }
  else
    w.record (Event.directory_is_empty (temp_path options.path) false)

/-- The function `main` (lines 70-266) from a world: the exit status and the
world it leaves. -/
def main_from (env : Env) (args_size : Nat) (options : Options) (w : World) : Int × World :=
  match main_prelude env args_size options w with
  | (none, w1) => (-1, w1)
  | (some items, w1) =>
    match episode_loop env options items w1 with
    | (Flow.abort, w2) => (-1, w2)
    | (_, w2) => (0, cleanup env options w2)

/-- A run of `main` on the filesystem `fs`, with an empty log. -/
def main (env : Env) (args_size : Nat) (options : Options) (fs : FS) : Int × World :=
  main_from env args_size options { fs := fs, log := [] }

/-- The world in which a run leaves the episode loop (lines 177-259); the world
after the prelude when the loop is not reached. -/
def world_after_loop (env : Env) (args_size : Nat) (options : Options) (fs : FS) : World :=
  match main_prelude env args_size options { fs := fs, log := [] } with
  | (some items, w) => (episode_loop env options items w).2
  | (none, w) => w

/-! ## Sample data used to evaluate the definitions -/

/-- The components of a path: the pieces between the `/` characters. -/
def path_components : List Char → List (List Char)
  | [] => [[]]
  | c :: rest =>
    if c = '/' then [] :: path_components rest
    else
      match path_components rest with
      | [] => [[c]]
      | piece :: more => (c :: piece) :: more

/-- Walk the components of a path: an empty component and `.` stay in place,
`..` steps back, a name steps in.  `seen` holds the names walked so far, last
first. -/
def walk_components (seen : List (List Char)) : List (List Char) → List (List Char)
  | [] => seen.reverse
  | piece :: more =>
    if piece = [] ∨ piece = ['.'] then walk_components seen more
    else if piece = ['.', '.'] then walk_components seen.tail more
    else walk_components (piece :: seen) more

/-- The resolution of a path on a filesystem without symbolic links, as a
relative name: `p/./tmp//x` and `p/tmp/x` both give `p/tmp/x`. -/
def normalize_path (p : String) : String :=
  String.mk (List.intercalate ['/'] (walk_components [] (path_components p.data)))

/-- Five episodes numbered 1 to 5, in list order. -/
def sample_items : List Podcast :=
  [ { number := 1, title := "a", url := "u1", ext := "mp3", meta := "m1" },
    { number := 2, title := "b", url := "u2", ext := "mp3", meta := "m2" },
    { number := 3, title := "c", url := "u3", ext := "mp3", meta := "m3" },
    { number := 4, title := "d", url := "u4", ext := "mp3", meta := "m4" },
    { number := 5, title := "e", url := "u5", ext := "mp3", meta := "m5" } ]

/-- Options of a plain download run into directory `p`. -/
def sample_options : Options :=
  { url := "feed", path := "p", list_only := false, newest_first := false,
    reverse_numbers := false, short_names := false, append_episode_nr := false,
    zero_padded_episode_nr := 0, episodes := [], stop_when_file_found := false,
    stop_when_file_found_string := "", add_meta := false }

/-- Whether the directory that holds the path `p` exists in `fs`. -/
def parent_exists (fs : FS) (p : String) : Bool :=
  fs.dirs.any (fun d => in_directory d (normalize_path p)
    && !(((normalize_path p).data.drop (d.data.length + 1)).contains '/'))

/-- Collaborators that succeed wherever the filesystem allows: paths resolve by
`normalize_path`, the feed parses to `items`, a stream opens when the directory
that holds the path exists, every download delivers the bytes `data`, a rename
succeeds when the directory that holds the destination exists. -/
def sample_env (items : List Podcast) : Env :=
  { resolve := normalize_path,
    get_items := fun _ _ => items,
    mkdir_ok := fun _ _ => true,
    get_string_stream := fun _ _ => some "xml",
    open_ok := fun w p => parent_exists w.fs p,
    write_file_stream := fun _ _ => (true, "data"),
    move_ok := fun w _ dst => parent_exists w.fs dst }

/-- The empty filesystem. -/
def empty_fs : FS := { files := [], dirs := [] }

/-- Three episodes, the first with a base name that starts with `tmp/`: its
final path `p/tmp/x.mp3` is the scratch path of the second. -/
def clash_items : List Podcast :=
  [ { number := 1, title := "tmp/x", url := "u1", ext := "mp3", meta := "m1" },
    { number := 2, title := "x", url := "u2", ext := "mp3", meta := "m2" },
    { number := 3, title := "zzz", url := "u3", ext := "mp3", meta := "m3" } ]

/-- A filesystem with the destination `p`, its scratch directory and a
directory `p/tmp/tmp`. -/
def clash_fs : FS := { files := [], dirs := ["p", "p/tmp", "p/tmp/tmp"] }

/-- Options of a download run into `p` that stops at a title containing `zzz`. -/
def stop_options : Options :=
  { sample_options with stop_when_file_found := true, stop_when_file_found_string := "zzz" }

/-- One episode whose media file has the extension `txt`. -/
def txt_items : List Podcast :=
  [ { number := 1, title := "a", url := "u1", ext := "txt", meta := "notes" } ]

/-- A filesystem with the destination `p` and an empty scratch directory. -/
def empty_scratch_fs : FS := { files := [], dirs := ["p", "p/tmp"] }

/-- Collaborators under which every media download fails after delivering the
bytes `par`; everything else is as in `sample_env`. -/
def failing_download_env (items : List Podcast) : Env :=
  { sample_env items with write_file_stream := fun _ _ => (false, "par") }

/-! ## Vocabulary of the statements -/

/-- The events of downloading an episode: the scratch file creation, the media
fetch, the move and the sidecar write. -/
def is_media_effect : Event → Bool
  | Event.open_ofstream _ _ => true
  | Event.write_file_stream _ _ _ => true
  | Event.move_file _ _ _ => true
  | Event.write_meta _ _ => true
  | _ => false

/-- A move that failed. -/
def is_move_failure : Event → Bool
  | Event.move_file _ _ false => true
  | _ => false

/-- The events before the loop: the directory creations and the feed fetch. -/
def is_prelude_event : Event → Bool
  | Event.create_directory _ _ => true
  | Event.get_string_stream _ _ => true
  | _ => false

/-- The world after the scratch file of `item`, holding `c`, was moved to its
final path. -/
def after_move (env : Env) (options : Options) (item : Podcast) (w : World) (c : String) :
    World :=
  { fs := write_file
            (remove_file (after_stream env options item w).fs
              (env.resolve (temp_file_path options item)))
            (env.resolve (file_path options item)) c,
    log := (after_stream env options item w).log ++
            [Event.move_file (temp_file_path options item) (file_path options item) true] }

/-- The world after the move of `item` failed. -/
def after_failed_move (env : Env) (options : Options) (item : Podcast) (w : World) : World :=
  (after_stream env options item w).record
    (Event.move_file (temp_file_path options item) (file_path options item) false)

/-- The world after a completed download of `item`, sidecar included when it
is requested. -/
def after_download (env : Env) (options : Options) (item : Podcast) (w : World) (c : String) :
    World :=
  if options.add_meta then write_sidecar env options item (after_move env options item w c)
  else after_move env options item w c

/-- The log of `w2` continues the log of `w` with downloading events only; a
failed move is among them exactly when the flow is `abort`, and it is then the
last one. -/
def log_extends (w w2 : World) (flow : Flow) : Prop :=
  ∃ evs, w2.log = w.log ++ evs ∧ (∀ e ∈ evs, is_media_effect e = true) ∧
    (flow ≠ Flow.abort → ∀ e ∈ evs, is_move_failure e = false) ∧
    (flow = Flow.abort → ∃ pre s d, evs = pre ++ [Event.move_file s d false] ∧
      (∀ e ∈ pre, is_move_failure e = false))

/-- Every move the log records as done went to the final path of an episode of
`items`, and a regular file is reached through that path. -/
def moved_files_present (env : Env) (options : Options) (items : List Podcast) (w : World) :
    Prop :=
  ∀ s d, Event.move_file s d true ∈ w.log →
    is_file w.fs (env.resolve d) = true
    ∧ ∃ i ∈ items, env.resolve d = env.resolve (file_path options i)

/-- No scratch path of an episode of `items` reaches the file that the final
path of an episode of `items` reaches. -/
def scratch_apart (env : Env) (options : Options) (items : List Podcast) : Prop :=
  ∀ i ∈ items, ∀ j ∈ items,
    env.resolve (temp_file_path options j) ≠ env.resolve (file_path options i)

/-- Whether episode number `n` lies in the range: at least `start` and, when an
end is given, at most that end. -/
def in_range (r : Range) (n : Nat) : Bool :=
  decide (r.start ≤ n) &&
    (match r.end_ with
     | some e => decide (n ≤ e)
     | none => true)

/-! ## Range selection -/

theorem get_subset_eq_filter (items : List Podcast) (r : Range) :
    get_subset items r.start r.end_ = items.filter (fun p => in_range r p.number) := by
  rfl

theorem collect_subsets_eq_join (items : List Podcast) (rs : List Range) :
    collect_subsets items rs
      = (rs.map (fun r => get_subset items r.start r.end_)).flatten := by
  induction rs with
  | nil => rfl
  | cons r rest ih => simp [collect_subsets, ih]

theorem count_collect_subsets (items : List Podcast) (p : Podcast) (rs : List Range) :
    (collect_subsets items rs).count p
      = items.count p * (rs.filter (fun r => in_range r p.number)).length := by
  induction rs with
  | nil => simp [collect_subsets]
  | cons r rest ih =>
    rw [collect_subsets, List.count_append, ih, get_subset_eq_filter]
    by_cases h : in_range r p.number = true
    · rw [List.count_filter (by simpa using h)]
      simp only [List.filter_cons, h, if_true, List.length_cons]
      rw [Nat.mul_succ, Nat.add_comm]
    · have h0 : (items.filter (fun q => in_range r q.number)).count p = 0 :=
        List.count_eq_zero_of_not_mem (fun hm => h (by simpa using (List.mem_filter.mp hm).2))
      rw [h0]
      simp [List.filter_cons, h]

/-! ## The filesystem operations -/

theorem is_file_write_file (fs : FS) (p c q : String) :
    is_file (write_file fs p c) q = true ↔ q = p ∨ is_file fs q = true := by
  simp only [is_file, write_file, List.any_cons, Bool.or_eq_true, beq_iff_eq, List.any_eq_true,
    List.mem_filter, bne_iff_ne]
  constructor
  · rintro (h | ⟨f, ⟨hf, _⟩, hq⟩)
    · exact Or.inl h.symm
    · exact Or.inr ⟨f, hf, hq⟩
  · rintro (h | ⟨f, hf, hq⟩)
    · exact Or.inl h.symm
    · by_cases hp : p = q
      · exact Or.inl hp
      · exact Or.inr ⟨f, ⟨hf, fun h => hp (h.symm.trans hq)⟩, hq⟩

theorem is_file_remove_file (fs : FS) (p q : String) :
    is_file (remove_file fs p) q = true ↔ q ≠ p ∧ is_file fs q = true := by
  simp only [is_file, remove_file, List.any_eq_true, List.mem_filter, bne_iff_ne, beq_iff_eq]
  constructor
  · rintro ⟨f, ⟨hf, hne⟩, hq⟩
    exact ⟨fun h => hne (hq.trans h), f, hf, hq⟩
  · rintro ⟨hne, f, hf, hq⟩
    exact ⟨f, ⟨hf, fun h => hne (hq.symm.trans h)⟩, hq⟩

theorem after_stream_fs (env : Env) (options : Options) (item : Podcast) (w : World) :
    (env.open_ok w (temp_file_path options item) = true ∧
      (after_stream env options item w).fs
        = write_file (write_file w.fs (env.resolve (temp_file_path options item)) "")
            (env.resolve (temp_file_path options item)) (stream_result env options item w).2)
    ∨ (env.open_ok w (temp_file_path options item) = false ∧
      (after_stream env options item w).fs = w.fs) := by
  cases ho : env.open_ok w (temp_file_path options item) with
  | true => left; simp [after_stream, open_scratch, ho]
  | false => right; simp [after_stream, open_scratch, ho, World.record]

theorem is_file_after_stream (env : Env) (options : Options) (item : Podcast) (w : World)
    (q : String) :
    is_file (after_stream env options item w).fs q = true
      ↔ (env.open_ok w (temp_file_path options item) = true
          ∧ q = env.resolve (temp_file_path options item))
        ∨ is_file w.fs q = true := by
  rcases after_stream_fs env options item w with ⟨ho, hfs⟩ | ⟨ho, hfs⟩
  · rw [hfs, is_file_write_file, is_file_write_file, ho]
    tauto
  · rw [hfs, ho]
    simp

theorem after_stream_log (env : Env) (options : Options) (item : Podcast) (w : World) :
    (after_stream env options item w).log = w.log ++
      [Event.open_ofstream (temp_file_path options item)
         (env.open_ok w (temp_file_path options item)),
       Event.write_file_stream item.url (temp_file_path options item)
         (stream_result env options item w).1] := by
  cases ho : env.open_ok w (temp_file_path options item) <;>
    simp [after_stream, open_scratch, ho, World.record]

theorem download_outcome (env : Env) (options : Options) (item : Podcast) (w : World) :
    ((stream_result env options item w).1 = false ∧
        download env options item w = (Flow.next, after_stream env options item w))
    ∨ ((stream_result env options item w).1 = true ∧
        download env options item w = (Flow.abort, after_failed_move env options item w))
    ∨ ((stream_result env options item w).1 = true ∧
        ∃ c, read_file (after_stream env options item w).fs
              (env.resolve (temp_file_path options item)) = some c
          ∧ download env options item w = (Flow.next, after_download env options item w c)) := by
  cases hs : (stream_result env options item w).1 with
  | false => left; simp [download, hs]
  | true =>
    right
    cases hread : read_file (after_stream env options item w).fs
        (env.resolve (temp_file_path options item)) with
    | none =>
      left
      simp [download, hs, move_file, hread, after_failed_move]
    | some c =>
      cases hm : env.move_ok (after_stream env options item w)
          (temp_file_path options item) (file_path options item) with
      | false =>
        left
        simp [download, hs, move_file, hread, hm, after_failed_move]
      | true =>
        right
        refine ⟨rfl, c, rfl, ?_⟩
        simp only [download, hs, move_file, hread, hm, after_download, after_move, if_true]
        split <;> rfl

theorem write_sidecar_log (env : Env) (options : Options) (item : Podcast) (v : World) :
    (write_sidecar env options item v).log = v.log ++
      [Event.write_meta (file_meta_path options item)
        (env.open_ok v (file_meta_path options item))] := by
  cases ho : env.open_ok v (file_meta_path options item) <;>
    simp [write_sidecar, ho, World.record]

theorem after_download_log (env : Env) (options : Options) (item : Podcast) (w : World)
    (c : String) :
    (after_download env options item w c).log = w.log ++
      ([Event.open_ofstream (temp_file_path options item)
          (env.open_ok w (temp_file_path options item)),
        Event.write_file_stream item.url (temp_file_path options item)
          (stream_result env options item w).1,
        Event.move_file (temp_file_path options item) (file_path options item) true]
        ++ if options.add_meta then
            [Event.write_meta (file_meta_path options item)
              (env.open_ok (after_move env options item w c) (file_meta_path options item))]
          else []) := by
  have hmove : (after_move env options item w c).log = w.log ++
      [Event.open_ofstream (temp_file_path options item)
          (env.open_ok w (temp_file_path options item)),
        Event.write_file_stream item.url (temp_file_path options item)
          (stream_result env options item w).1,
        Event.move_file (temp_file_path options item) (file_path options item) true] := by
    simp [after_move, after_stream_log]
  unfold after_download
  split
  · rw [write_sidecar_log, hmove]
    simp
  · rw [hmove]
    simp

theorem after_failed_move_log (env : Env) (options : Options) (item : Podcast) (w : World) :
    (after_failed_move env options item w).log = w.log ++
      [Event.open_ofstream (temp_file_path options item)
         (env.open_ok w (temp_file_path options item)),
       Event.write_file_stream item.url (temp_file_path options item)
         (stream_result env options item w).1,
       Event.move_file (temp_file_path options item) (file_path options item) false] := by
  simp [after_failed_move, World.record, after_stream_log]

theorem is_file_write_sidecar (env : Env) (options : Options) (item : Podcast) (w : World)
    (q : String) (h : is_file w.fs q = true) :
    is_file (write_sidecar env options item w).fs q = true := by
  unfold write_sidecar
  split
  · rw [is_file_write_file]
    exact Or.inr h
  · exact h

theorem is_file_after_download (env : Env) (options : Options) (item : Podcast) (w : World)
    (c q : String) (hq : q ≠ env.resolve (temp_file_path options item))
    (h : is_file w.fs q = true) :
    is_file (after_download env options item w c).fs q = true := by
  have h1 : is_file (after_move env options item w c).fs q = true := by
    simp only [after_move, is_file_write_file, is_file_remove_file, is_file_after_stream]
    exact Or.inr ⟨hq, Or.inr h⟩
  unfold after_download
  split
  · exact is_file_write_sidecar env options item _ q h1
  · exact h1

theorem is_file_after_download_final (env : Env) (options : Options) (item : Podcast)
    (w : World) (c : String) :
    is_file (after_download env options item w c).fs (env.resolve (file_path options item))
      = true := by
  have h1 : is_file (after_move env options item w c).fs (env.resolve (file_path options item))
      = true := by
    rw [after_move, is_file_write_file]
    exact Or.inl rfl
  unfold after_download
  split
  · exact is_file_write_sidecar env options item _ _ h1
  · exact h1

/-! ## One iteration of the loop -/

theorem episode_step_outcome (env : Env) (options : Options) (item : Podcast) (w : World) :
    (options.list_only = true ∧ episode_step env options item w = (Flow.next, w))
    ∨ (options.list_only = false ∧ stop_triggers env options item w.fs = true ∧
        episode_step env options item w = (Flow.stop, w))
    ∨ (options.list_only = false ∧ stop_triggers env options item w.fs = false ∧
        file_exists env w.fs (file_path options item) = true ∧
        episode_step env options item w = (Flow.next, w))
    ∨ (options.list_only = false ∧ stop_triggers env options item w.fs = false ∧
        file_exists env w.fs (file_path options item) = false ∧
        episode_step env options item w = download env options item w) := by
  cases hl : options.list_only with
  | true => left; simp [episode_step, hl]
  | false =>
    right
    cases ht : stop_triggers env options item w.fs with
    | true => left; simp [episode_step, hl, ht]
    | false =>
      right
      cases he : file_exists env w.fs (file_path options item) with
      | true => left; simp [episode_step, hl, ht, he]
      | false => right; simp [episode_step, hl, ht, he]

theorem log_extends_refl (w : World) (flow : Flow) (h : flow ≠ Flow.abort) :
    log_extends w w flow :=
  ⟨[], by simp, by simp, by simp, fun h2 => absurd h2 h⟩

theorem log_extends_trans (w w1 w2 : World) (flow : Flow)
    (h1 : log_extends w w1 Flow.next) (h2 : log_extends w1 w2 flow) :
    log_extends w w2 flow := by
  obtain ⟨e1, hl1, hm1, hn1, _⟩ := h1
  obtain ⟨e2, hl2, hm2, hn2, ha2⟩ := h2
  have hn1 := hn1 (by decide)
  refine ⟨e1 ++ e2, by rw [hl2, hl1, List.append_assoc], ?_, ?_, ?_⟩
  · intro e he
    rcases List.mem_append.mp he with h | h
    · exact hm1 e h
    · exact hm2 e h
  · intro hf e he
    rcases List.mem_append.mp he with h | h
    · exact hn1 e h
    · exact hn2 hf e h
  · intro hf
    obtain ⟨pre, s, d, hev, hpre⟩ := ha2 hf
    refine ⟨e1 ++ pre, s, d, by rw [hev, List.append_assoc], ?_⟩
    intro e he
    rcases List.mem_append.mp he with h | h
    · exact hn1 e h
    · exact hpre e h

theorem download_log_extends (env : Env) (options : Options) (item : Podcast) (w : World) :
    log_extends w (download env options item w).2 (download env options item w).1 := by
  rcases download_outcome env options item w with ⟨hs, h⟩ | ⟨hs, h⟩ | ⟨hs, c, _, h⟩
  · rw [h]
    refine ⟨_, after_stream_log env options item w, ?_, ?_, fun h2 => by cases h2⟩
    · intro e he
      simp only [List.mem_cons, List.mem_singleton, List.not_mem_nil, or_false] at he
      rcases he with rfl | rfl <;> rfl
    · intro _ e he
      simp only [List.mem_cons, List.mem_singleton, List.not_mem_nil, or_false] at he
      rcases he with rfl | rfl <;> rfl
  · rw [h]
    refine ⟨_, after_failed_move_log env options item w, ?_, fun h2 => absurd rfl h2, ?_⟩
    · intro e he
      simp only [List.mem_cons, List.mem_singleton, List.not_mem_nil, or_false] at he
      rcases he with rfl | rfl | rfl <;> rfl
    · intro _
      refine ⟨[Event.open_ofstream (temp_file_path options item)
            (env.open_ok w (temp_file_path options item)),
          Event.write_file_stream item.url (temp_file_path options item)
            (stream_result env options item w).1], _, _, rfl, ?_⟩
      intro e he
      simp only [List.mem_cons, List.mem_singleton, List.not_mem_nil, or_false] at he
      rcases he with rfl | rfl <;> rfl
  · rw [h]
    refine ⟨_, after_download_log env options item w c, ?_, ?_, fun h2 => by cases h2⟩
    · intro e he
      split at he <;>
        simp only [List.mem_cons, List.mem_append, List.mem_singleton, List.not_mem_nil,
          or_false] at he
      · rcases he with (rfl | rfl | rfl) | rfl <;> rfl
      · rcases he with rfl | rfl | rfl <;> rfl
    · intro _ e he
      split at he <;>
        simp only [List.mem_cons, List.mem_append, List.mem_singleton, List.not_mem_nil,
          or_false] at he
      · rcases he with (rfl | rfl | rfl) | rfl <;> rfl
      · rcases he with rfl | rfl | rfl <;> rfl

theorem episode_step_log_extends (env : Env) (options : Options) (item : Podcast)
    (w : World) :
    log_extends w (episode_step env options item w).2 (episode_step env options item w).1 := by
  rcases episode_step_outcome env options item w with
    ⟨_, h⟩ | ⟨_, _, h⟩ | ⟨_, _, _, h⟩ | ⟨_, _, _, h⟩
  · rw [h]; exact log_extends_refl w _ (by simp)
  · rw [h]; exact log_extends_refl w _ (by simp)
  · rw [h]; exact log_extends_refl w _ (by simp)
  · rw [h]; exact download_log_extends env options item w

/-! ## The loop -/

theorem episode_loop_cons_next (env : Env) (options : Options) (item : Podcast)
    (rest : List Podcast) (w w1 : World)
    (h : episode_step env options item w = (Flow.next, w1)) :
    episode_loop env options (item :: rest) w = episode_loop env options rest w1 := by
  simp [episode_loop, h]

theorem episode_loop_cons_stop (env : Env) (options : Options) (item : Podcast)
    (rest : List Podcast) (w w1 : World)
    (h : episode_step env options item w = (Flow.stop, w1)) :
    episode_loop env options (item :: rest) w = (Flow.stop, w1) := by
  simp [episode_loop, h]

theorem episode_loop_cons_abort (env : Env) (options : Options) (item : Podcast)
    (rest : List Podcast) (w w1 : World)
    (h : episode_step env options item w = (Flow.abort, w1)) :
    episode_loop env options (item :: rest) w = (Flow.abort, w1) := by
  simp [episode_loop, h]

theorem episode_loop_cons_cases (env : Env) (options : Options) (item : Podcast)
    (rest : List Podcast) (w : World) :
    ((episode_step env options item w).1 = Flow.next ∧
        episode_loop env options (item :: rest) w
          = episode_loop env options rest (episode_step env options item w).2)
    ∨ ((episode_step env options item w).1 ≠ Flow.next ∧
        episode_loop env options (item :: rest) w = episode_step env options item w) := by
  rcases hstep : episode_step env options item w with ⟨flow, w1⟩
  cases flow
  · left; exact ⟨rfl, episode_loop_cons_next env options item rest w w1 hstep⟩
  · right; exact ⟨by simp, episode_loop_cons_stop env options item rest w w1 hstep⟩
  · right; exact ⟨by simp, episode_loop_cons_abort env options item rest w w1 hstep⟩

theorem episode_loop_append (env : Env) (options : Options) (pre post : List Podcast)
    (w w1 : World) (h : episode_loop env options pre w = (Flow.next, w1)) :
    episode_loop env options (pre ++ post) w = episode_loop env options post w1 := by
  induction pre generalizing w with
  | nil =>
    simp only [episode_loop, Prod.mk.injEq, true_and] at h
    subst h; rfl
  | cons item rest ih =>
    rcases episode_loop_cons_cases env options item rest w with ⟨hn, hl⟩ | ⟨hne, hl⟩
    · rw [List.cons_append]
      rcases episode_loop_cons_cases env options item (rest ++ post) w with ⟨_, hl2⟩ | ⟨hne2, _⟩
      · rw [hl2]
        exact ih _ (hl ▸ h)
      · exact absurd hn hne2
    · rw [hl] at h
      rw [h] at hne
      exact absurd rfl hne

theorem episode_loop_log_extends (env : Env) (options : Options) (items : List Podcast)
    (w : World) :
    log_extends w (episode_loop env options items w).2 (episode_loop env options items w).1 := by
  induction items generalizing w with
  | nil => exact log_extends_refl w _ (by simp [episode_loop])
  | cons item rest ih =>
    have hstep := episode_step_log_extends env options item w
    rcases episode_loop_cons_cases env options item rest w with ⟨hn, hl⟩ | ⟨_, hl⟩
    · rw [hl]
      rw [hn] at hstep
      exact log_extends_trans _ _ _ _ hstep (ih _)
    · rw [hl]; exact hstep

/-! ## Before the loop -/

theorem create_directory_outcome (env : Env) (w : World) (p : String) :
    (create_directory_if_not_exists env w p).2.log
        = w.log ++ [Event.create_directory p (create_directory_if_not_exists env w p).1]
    ∧ (create_directory_if_not_exists env w p).2.fs.files = w.fs.files
    ∧ (∀ d ∈ w.fs.dirs, d ∈ (create_directory_if_not_exists env w p).2.fs.dirs) := by
  unfold create_directory_if_not_exists
  split
  · exact ⟨rfl, rfl, fun d hd => hd⟩
  · split
    · exact ⟨rfl, rfl, fun d hd => List.mem_cons_of_mem _ hd⟩
    · exact ⟨rfl, rfl, fun d hd => hd⟩

theorem create_directories_outcome (env : Env) (options : Options) (w : World) :
    ∃ evs, (create_directories env options w).2.log = w.log ++ evs
      ∧ (∀ e ∈ evs, ∃ p ok, e = Event.create_directory p ok)
      ∧ ((create_directories env options w).1 = true → ∀ p, Event.create_directory p false ∉ evs)
      ∧ ((create_directories env options w).1 = false → ∃ p, Event.create_directory p false ∈ evs)
      ∧ (create_directories env options w).2.fs.files = w.fs.files
      ∧ (∀ d ∈ w.fs.dirs, d ∈ (create_directories env options w).2.fs.dirs)
      ∧ (options.list_only = true → create_directories env options w = (true, w)) := by
  cases hl : options.list_only with
  | true =>
    refine ⟨[], ?_⟩
    simp [create_directories, hl]
  | false =>
    obtain ⟨hlog1, hf1, hd1⟩ := create_directory_outcome env w options.path
    rcases h1 : create_directory_if_not_exists env w options.path with ⟨ok1, w1⟩
    rw [h1] at hlog1 hf1 hd1
    simp only at hlog1 hf1 hd1
    cases ok1 with
    | false =>
      refine ⟨[Event.create_directory options.path false], ?_⟩
      simp [create_directories, hl, h1, hlog1, hf1]
      exact hd1
    | true =>
      obtain ⟨hlog2, hf2, hd2⟩ := create_directory_outcome env w1 (temp_path options.path)
      rcases h2 : create_directory_if_not_exists env w1 (temp_path options.path) with ⟨ok2, w2⟩
      rw [h2] at hlog2 hf2 hd2
      simp only at hlog2 hf2 hd2
      refine ⟨[Event.create_directory options.path true,
        Event.create_directory (temp_path options.path) ok2], ?_⟩
      cases ok2 <;> simp [create_directories, hl, h1, h2, hlog2, hlog1, hf2, hf1] <;>
        exact fun d hd => hd2 d (hd1 d hd)

theorem main_prelude_outcome (env : Env) (args_size : Nat) (options : Options) (w : World) :
    ∃ evs, (main_prelude env args_size options w).2.log = w.log ++ evs
      ∧ (∀ e ∈ evs, is_prelude_event e = true)
      ∧ (main_prelude env args_size options w).2.fs.files = w.fs.files
      ∧ (∀ d ∈ w.fs.dirs, d ∈ (main_prelude env args_size options w).2.fs.dirs)
      ∧ (∀ items, (main_prelude env args_size options w).1 = some items →
          args_size ≠ 0 ∧ options.url ≠ "" ∧ (options.path ≠ "" ∨ options.list_only = true)
          ∧ items ≠ []
          ∧ (∀ p, Event.create_directory p false ∉ evs)
          ∧ (∀ u, Event.get_string_stream u none ∉ evs)
          ∧ (∀ u xml, Event.get_string_stream u (some xml) ∈ evs →
              select_items options (env.get_items xml (reverse_type options)) = items))
      ∧ ((main_prelude env args_size options w).1 = none →
          args_size = 0 ∨ options.url = "" ∨ (options.path = "" ∧ options.list_only = false)
          ∨ (∃ p, Event.create_directory p false ∈ evs)
          ∨ (∃ u, Event.get_string_stream u none ∈ evs)
          ∨ (∃ u xml, Event.get_string_stream u (some xml) ∈ evs ∧
              select_items options (env.get_items xml (reverse_type options)) = [])) := by
  by_cases h0 : args_size = 0
  · refine ⟨[], ?_⟩
    simp [main_prelude, h0]
  by_cases h1 : options.url = "" ∨ (options.path = "" ∧ options.list_only = false)
  · refine ⟨[], ?_⟩
    have hp : main_prelude env args_size options w = (none, w) := by
      simp only [main_prelude, h0, h1, if_true, if_false]
    rw [hp]
    refine ⟨by simp, by simp, rfl, fun d hd => hd, by simp, fun _ => ?_⟩
    rcases h1 with h | h
    · exact Or.inr (Or.inl h)
    · exact Or.inr (Or.inr (Or.inl h))
  have h1a : options.url ≠ "" := fun h => h1 (Or.inl h)
  have h1b : options.path ≠ "" ∨ options.list_only = true := by
    by_cases hp : options.path = ""
    · right
      cases hl : options.list_only with
      | true => rfl
      | false => exact absurd (Or.inr ⟨hp, hl⟩) h1
    · exact Or.inl hp
  obtain ⟨evs, hlog, hkind, htrue, hfalse, hfiles, hdirs, _⟩ :=
    create_directories_outcome env options w
  rcases hc : create_directories env options w with ⟨ok, w1⟩
  rw [hc] at hlog htrue hfalse hfiles hdirs
  simp only at hlog htrue hfalse hfiles hdirs
  have hprel : ∀ e ∈ evs, is_prelude_event e = true := by
    intro e he
    obtain ⟨p, ok, rfl⟩ := hkind e he
    rfl
  have hnog : ∀ u x, Event.get_string_stream u x ∉ evs := by
    intro u x hm
    obtain ⟨p, ok, hp⟩ := hkind _ hm
    cases hp
  cases ok with
  | false =>
    refine ⟨evs, ?_⟩
    simp only [main_prelude, h0, h1, if_false, hc]
    refine ⟨hlog, hprel, hfiles, hdirs, by simp, fun _ => ?_⟩
    exact Or.inr (Or.inr (Or.inr (Or.inl (hfalse rfl))))
  | true =>
    have htrue := htrue rfl
    cases hg : env.get_string_stream w1 options.url with
    | none =>
      refine ⟨evs ++ [Event.get_string_stream options.url none], ?_⟩
      simp only [main_prelude, h0, h1, if_false, hc, hg, World.record]
      refine ⟨by rw [hlog, List.append_assoc], ?_, hfiles, hdirs, by simp, fun _ => ?_⟩
      · intro e he
        rcases List.mem_append.mp he with h | h
        · exact hprel e h
        · rw [List.mem_singleton.mp h]; rfl
      · exact Or.inr (Or.inr (Or.inr (Or.inr (Or.inl ⟨options.url, by simp⟩))))
    | some xml =>
      refine ⟨evs ++ [Event.get_string_stream options.url (some xml)], ?_⟩
      have hmem : ∀ e ∈ evs ++ [Event.get_string_stream options.url (some xml)],
          is_prelude_event e = true := by
        intro e he
        rcases List.mem_append.mp he with h | h
        · exact hprel e h
        · rw [List.mem_singleton.mp h]; rfl
      by_cases hlen : (select_items options (env.get_items xml (reverse_type options))).length > 0
      · simp only [main_prelude, h0, h1, if_false, hc, hg, World.record, hlen, if_true]
        refine ⟨by rw [hlog, List.append_assoc], hmem, hfiles, hdirs, ?_, by simp⟩
        intro items hitems
        simp only [Option.some.injEq] at hitems
        subst hitems
        refine ⟨h0, h1a, h1b, List.ne_nil_of_length_pos hlen, ?_, ?_, ?_⟩
        · intro p hm
          rcases List.mem_append.mp hm with h | h
          · exact htrue p h
          · simp at h
        · intro u hm
          rcases List.mem_append.mp hm with h | h
          · exact hnog u none h
          · simp at h
        · intro u x hm
          rcases List.mem_append.mp hm with h | h
          · exact absurd h (hnog u (some x))
          · simp only [List.mem_singleton, Event.get_string_stream.injEq,
              Option.some.injEq] at h
            rw [h.2]
      · simp only [main_prelude, h0, h1, if_false, hc, hg, World.record, hlen]
        refine ⟨by rw [hlog, List.append_assoc], hmem, hfiles, hdirs, by simp, fun _ => ?_⟩
        refine Or.inr (Or.inr (Or.inr (Or.inr (Or.inr ⟨options.url, xml, by simp, ?_⟩))))
        exact List.length_eq_zero.mp (Nat.eq_zero_of_not_pos hlen)

/-! ## After the loop -/

theorem cleanup_outcome (env : Env) (options : Options) (w : World) :
    ∃ evs, (cleanup env options w).log = w.log ++ evs
      ∧ (∀ e ∈ evs, (∃ b, e = Event.directory_is_empty (temp_path options.path) b)
          ∨ e = Event.delete_directory (temp_path options.path))
      ∧ (cleanup env options w).fs.files = w.fs.files := by
  unfold cleanup
  split
  · exact ⟨_, rfl, by simp, rfl⟩
  · exact ⟨_, rfl, by simp, rfl⟩

theorem main_from_eq (env : Env) (args_size : Nat) (options : Options) (w : World) :
    (∃ w1, main_prelude env args_size options w = (none, w1)
        ∧ main_from env args_size options w = (-1, w1))
    ∨ (∃ items w1 w2, main_prelude env args_size options w = (some items, w1)
        ∧ episode_loop env options items w1 = (Flow.abort, w2)
        ∧ main_from env args_size options w = (-1, w2))
    ∨ (∃ items w1 flow w2, main_prelude env args_size options w = (some items, w1)
        ∧ episode_loop env options items w1 = (flow, w2) ∧ flow ≠ Flow.abort
        ∧ main_from env args_size options w = (0, cleanup env options w2)) := by
  rcases hp : main_prelude env args_size options w with ⟨r, w1⟩
  cases r with
  | none => left; exact ⟨w1, rfl, by simp [main_from, hp]⟩
  | some items =>
    right
    rcases hl : episode_loop env options items w1 with ⟨flow, w2⟩
    cases flow with
    | abort => left; exact ⟨items, w1, w2, rfl, hl, by simp [main_from, hp, hl]⟩
    | next => right; exact ⟨items, w1, Flow.next, w2, rfl, hl, by simp, by simp [main_from, hp, hl]⟩
    | stop => right; exact ⟨items, w1, Flow.stop, w2, rfl, hl, by simp, by simp [main_from, hp, hl]⟩

/-! ## Facts about existing files -/

theorem file_exists_mono (env : Env) (fs fs2 : FS) (p : String) (hfiles : fs2.files = fs.files)
    (hdirs : ∀ d ∈ fs.dirs, d ∈ fs2.dirs) (h : file_exists env fs p = true) :
    file_exists env fs2 p = true := by
  simp only [file_exists, has_entry, is_file, Bool.or_eq_true, List.contains_eq_any_beq, hfiles,
    List.any_eq_true, beq_iff_eq] at h ⊢
  rcases h with h | ⟨d, hd, hk⟩
  · exact Or.inl h
  · exact Or.inr ⟨d, hdirs d hd, hk⟩

theorem episode_step_skip (env : Env) (options : Options) (item : Podcast) (w : World)
    (hstop : stop_triggers env options item w.fs = false)
    (hex : file_exists env w.fs (file_path options item) = true) :
    episode_step env options item w = (Flow.next, w) := by
  rcases episode_step_outcome env options item w with
    ⟨_, h⟩ | ⟨_, ht, _⟩ | ⟨_, _, _, h⟩ | ⟨_, _, he, _⟩
  · exact h
  · rw [hstop] at ht; cases ht
  · exact h
  · rw [hex] at he; cases he

theorem episode_loop_all_exist (env : Env) (options : Options) (items : List Podcast)
    (w : World) (hoff : options.stop_when_file_found = false)
    (hex : ∀ item ∈ items, file_exists env w.fs (file_path options item) = true) :
    episode_loop env options items w = (Flow.next, w) := by
  induction items with
  | nil => rfl
  | cons item rest ih =>
    have hs : episode_step env options item w = (Flow.next, w) :=
      episode_step_skip env options item w (by simp [stop_triggers, hoff])
        (hex item (List.mem_cons_self _ _))
    rw [episode_loop_cons_next env options item rest w w hs]
    exact ih (fun i hi => hex i (List.mem_cons_of_mem _ hi))

theorem episode_loop_list_only (env : Env) (options : Options) (items : List Podcast)
    (w : World) (hl : options.list_only = true) :
    episode_loop env options items w = (Flow.next, w) := by
  induction items with
  | nil => rfl
  | cons item rest ih =>
    have hs : episode_step env options item w = (Flow.next, w) := by
      simp [episode_step, hl]
    rw [episode_loop_cons_next env options item rest w w hs]
    exact ih

/-! ## Moved files stay where they are -/

theorem moved_files_present_of_log (env : Env) (options : Options) (items : List Podcast)
    (w w2 : World) (h : moved_files_present env options items w)
    (hlog : ∀ s d, Event.move_file s d true ∈ w2.log → Event.move_file s d true ∈ w.log)
    (hfs : ∀ q, is_file w.fs q = true → is_file w2.fs q = true) :
    moved_files_present env options items w2 := by
  intro s d hm
  obtain ⟨h1, h2⟩ := h s d (hlog s d hm)
  exact ⟨hfs _ h1, h2⟩

theorem download_moved_files (env : Env) (options : Options) (items : List Podcast)
    (item : Podcast) (w : World) (hitem : item ∈ items)
    (hsep : scratch_apart env options items)
    (h : moved_files_present env options items w) :
    moved_files_present env options items (download env options item w).2 := by
  rcases download_outcome env options item w with ⟨_, hd⟩ | ⟨_, hd⟩ | ⟨_, c, _, hd⟩
  · rw [hd]
    refine moved_files_present_of_log env options items w _ h ?_ ?_
    · intro s d hm
      replace hm : Event.move_file s d true ∈ (after_stream env options item w).log := hm
      rw [after_stream_log] at hm
      simpa using hm
    · intro q hq
      exact (is_file_after_stream env options item w q).mpr (Or.inr hq)
  · rw [hd]
    refine moved_files_present_of_log env options items w _ h ?_ ?_
    · intro s d hm
      replace hm : Event.move_file s d true ∈ (after_failed_move env options item w).log := hm
      rw [after_failed_move_log] at hm
      simpa using hm
    · intro q hq
      exact (is_file_after_stream env options item w q).mpr (Or.inr hq)
  · rw [hd]
    intro s d hm
    replace hm : Event.move_file s d true ∈ (after_download env options item w c).log := hm
    rw [after_download_log] at hm
    have hcases : Event.move_file s d true ∈ w.log ∨ d = file_path options item := by
      split at hm <;>
        simp only [List.mem_append, List.mem_cons, List.mem_singleton, List.not_mem_nil,
          or_false, Event.move_file.injEq, and_true, reduceCtorEq, false_or] at hm
      · rcases hm with hm | hm
        · exact Or.inl hm
        · exact Or.inr hm.2
      · rcases hm with hm | hm
        · exact Or.inl hm
        · exact Or.inr hm.2
    rcases hcases with hold | rfl
    · obtain ⟨h1, i, hi, h2⟩ := h s d hold
      refine ⟨is_file_after_download env options item w c _ ?_ h1, i, hi, h2⟩
      intro heq
      exact hsep i hi item hitem (heq.symm.trans h2 ▸ rfl)
    · exact ⟨is_file_after_download_final env options item w c, item, hitem, rfl⟩

theorem episode_step_moved_files (env : Env) (options : Options) (items : List Podcast)
    (item : Podcast) (w : World) (hitem : item ∈ items)
    (hsep : scratch_apart env options items)
    (h : moved_files_present env options items w) :
    moved_files_present env options items (episode_step env options item w).2 := by
  rcases episode_step_outcome env options item w with
    ⟨_, hs⟩ | ⟨_, _, hs⟩ | ⟨_, _, _, hs⟩ | ⟨_, _, _, hs⟩
  · rw [hs]; exact h
  · rw [hs]; exact h
  · rw [hs]; exact h
  · rw [hs]; exact download_moved_files env options items item w hitem hsep h

theorem episode_loop_moved_files (env : Env) (options : Options) (items : List Podcast)
    (todo : List Podcast) (w : World) (hsub : ∀ i ∈ todo, i ∈ items)
    (hsep : scratch_apart env options items)
    (h : moved_files_present env options items w) :
    moved_files_present env options items (episode_loop env options todo w).2 := by
  induction todo generalizing w with
  | nil => exact h
  | cons item rest ih =>
    have hstep := episode_step_moved_files env options items item w
      (hsub item (List.mem_cons_self _ _)) hsep h
    rcases episode_loop_cons_cases env options item rest w with ⟨_, hl⟩ | ⟨_, hl⟩
    · rw [hl]
      exact ih _ (fun i hi => hsub i (List.mem_cons_of_mem _ hi)) hstep
    · rw [hl]; exact hstep

theorem main_prelude_moved_files (env : Env) (args_size : Nat) (options : Options) (fs : FS)
    (items : List Podcast) :
    moved_files_present env options items
      (main_prelude env args_size options { fs := fs, log := [] }).2 := by
  obtain ⟨evs, hlog, hkind, _⟩ :=
    main_prelude_outcome env args_size options { fs := fs, log := [] }
  intro s d hm
  rw [hlog] at hm
  have := hkind _ (by simpa using hm)
  cases this

theorem cleanup_moved_files (env : Env) (options : Options) (items : List Podcast) (w : World)
    (h : moved_files_present env options items w) :
    moved_files_present env options items (cleanup env options w) := by
  obtain ⟨evs, hlog, hkind, hfiles⟩ := cleanup_outcome env options w
  refine moved_files_present_of_log env options items w _ h ?_ ?_
  · intro s d hm
    rw [hlog] at hm
    rcases List.mem_append.mp hm with hm | hm
    · exact hm
    · rcases hkind _ hm with ⟨b, hb⟩ | hb <;> cases hb
  · intro q hq
    simpa only [is_file, hfiles] using hq

/-! ## The stop policy -/

theorem stop_triggers_iff (env : Env) (options : Options) (item : Podcast) (fs : FS) :
    stop_triggers env options item fs = true ↔
      options.stop_when_file_found = true ∧
        ((options.stop_when_file_found_string ≠ "" ∧
            options.stop_when_file_found_string.data <:+: (base_name options item).data)
          ∨ (options.stop_when_file_found_string = "" ∧
              file_exists env fs (file_path options item) = true)) := by
  unfold stop_triggers
  cases options.stop_when_file_found with
  | false => simp
  | true =>
    by_cases hs : options.stop_when_file_found_string = ""
    · simp [hs]
    · simp [hs, string_exists]

theorem episode_loop_stop_inv (env : Env) (options : Options) (items : List Podcast)
    (w w2 : World) (h : episode_loop env options items w = (Flow.stop, w2)) :
    ∃ pre item post, items = pre ++ item :: post
      ∧ episode_loop env options pre w = (Flow.next, w2)
      ∧ options.list_only = false ∧ stop_triggers env options item w2.fs = true := by
  induction items generalizing w with
  | nil => simp [episode_loop] at h
  | cons item rest ih =>
    rcases episode_loop_cons_cases env options item rest w with ⟨hn, hl⟩ | ⟨hne, hl⟩
    · rw [hl] at h
      obtain ⟨pre, it, post, hitems, hpre, hlo, htr⟩ := ih _ h
      refine ⟨item :: pre, it, post, by rw [hitems]; rfl, ?_, hlo, htr⟩
      rw [episode_loop_cons_next env options item pre w (episode_step env options item w).2
        (by rw [← hn])]
      exact hpre
    · rw [hl] at h
      rcases episode_step_outcome env options item w with
        ⟨_, hs⟩ | ⟨hlo, htr, hs⟩ | ⟨_, _, _, hs⟩ | ⟨_, _, _, hs⟩
      · rw [hs] at h; cases h
      · rw [hs] at h
        simp only [Prod.mk.injEq, true_and] at h
        subst h
        exact ⟨[], item, rest, rfl, rfl, hlo, htr⟩
      · rw [hs] at h; cases h
      · rw [hs] at h
        rcases download_outcome env options item w with ⟨_, hd⟩ | ⟨_, hd⟩ | ⟨_, c, _, hd⟩ <;>
          rw [hd] at h <;> cases h

theorem list_only_run (env : Env) (args_size : Nat) (options : Options) (fs : FS)
    (hl : options.list_only = true) :
    (∀ e ∈ (main env args_size options fs).2.log,
        (∃ u x, e = Event.get_string_stream u x)
        ∨ (∃ b, e = Event.directory_is_empty (temp_path options.path) b)
        ∨ e = Event.delete_directory (temp_path options.path))
    ∧ (main env args_size options fs).2.fs.files = fs.files
    ∧ (∀ d, d ≠ env.resolve (temp_path options.path) →
        (d ∈ (main env args_size options fs).2.fs.dirs ↔ d ∈ fs.dirs)) := by
  have hclean : ∀ w : World, (cleanup env options w).fs.files = w.fs.files
      ∧ (∀ d, d ≠ env.resolve (temp_path options.path) →
          (d ∈ (cleanup env options w).fs.dirs ↔ d ∈ w.fs.dirs))
      ∧ (∀ e ∈ (cleanup env options w).log, e ∈ w.log
          ∨ (∃ b, e = Event.directory_is_empty (temp_path options.path) b)
          ∨ e = Event.delete_directory (temp_path options.path)) := by
    intro w
    unfold cleanup
    split
    · refine ⟨rfl, ?_, ?_⟩
      · intro d hd
        simp [delete_directory, remove_directory, hd]
      · intro e he
        simp only [List.mem_append, List.mem_cons, List.mem_singleton, List.not_mem_nil,
          or_false] at he
        rcases he with h | h | h
        · exact Or.inl h
        · exact Or.inr (Or.inl ⟨_, h⟩)
        · exact Or.inr (Or.inr h)
    · refine ⟨rfl, fun d _ => Iff.rfl, ?_⟩
      intro e he
      simp only [World.record, List.mem_append, List.mem_singleton] at he
      rcases he with h | h
      · exact Or.inl h
      · exact Or.inr (Or.inl ⟨_, h⟩)
  have hdirs : create_directories env options { fs := fs, log := [] }
      = (true, { fs := fs, log := [] }) := by
    simp [create_directories, hl]
  unfold main
  rcases main_from_eq env args_size options { fs := fs, log := [] } with
    ⟨w1, hp, hm⟩ | ⟨items, w1, w2, hp, hlp, hm⟩ | ⟨items, w1, flow, w2, hp, hlp, hflow, hm⟩
  · rw [hm]
    have hw1 : w1.fs = fs ∧ ∀ e ∈ w1.log, ∃ u x, e = Event.get_string_stream u x := by
      unfold main_prelude at hp
      rw [hdirs] at hp
      simp only at hp
      split at hp
      · cases hp; exact ⟨rfl, by simp⟩
      · split at hp
        · cases hp; exact ⟨rfl, by simp⟩
        · split at hp
          · cases hp; exact ⟨rfl, by simp [World.record]⟩
          · split at hp
            · cases hp
            · cases hp; exact ⟨rfl, by simp [World.record]⟩
    refine ⟨fun e he => Or.inl (hw1.2 e he), by rw [hw1.1], fun d _ => by rw [hw1.1]⟩
  · rw [episode_loop_list_only env options items w1 hl] at hlp
    cases hlp
  · rw [episode_loop_list_only env options items w1 hl] at hlp
    simp only [Prod.mk.injEq] at hlp
    obtain ⟨_, rfl⟩ := hlp
    rw [hm]
    have hw1 : w1.fs = fs ∧ ∀ e ∈ w1.log, ∃ u x, e = Event.get_string_stream u x := by
      unfold main_prelude at hp
      rw [hdirs] at hp
      simp only at hp
      split at hp
      · cases hp
      · split at hp
        · cases hp
        · split at hp
          · cases hp
          · split at hp
            · cases hp; exact ⟨rfl, by simp [World.record]⟩
            · cases hp
    obtain ⟨hf, hd, he⟩ := hclean w1
    refine ⟨?_, by rw [hf, hw1.1], fun d hdne => by rw [hd d hdne, hw1.1]⟩
    intro e hmem
    rcases he e hmem with h | h
    · exact Or.inl (hw1.2 e h)
    · exact Or.inr h


/-! ## The exit status -/

/-- C1: `main` returns 0 or -1, and it returns 0 exactly when no fatal condition
occurs: there are arguments, the url is not empty, the output path is not empty
unless list-only, no directory creation failed, the feed fetch did not fail, the
fetched feed did not leave zero episodes after parsing and range selection, and
no move failed.  Failed media downloads and an early stop are not among the
conditions, so such runs return 0: so does the sample run in which all five
downloads fail, and the one that stops at the first episode. -/
theorem main_exit_status (env : Env) (args_size : Nat) (options : Options) (fs : FS) :
    ((main env args_size options fs).1 = 0 ∨ (main env args_size options fs).1 = -1)
    ∧ (main (failing_download_env sample_items) 2 sample_options empty_fs).1 = 0
    ∧ (main (sample_env sample_items) 2
        { sample_options with stop_when_file_found := true, stop_when_file_found_string := "a" }
        empty_fs).1 = 0
    ∧ ((main env args_size options fs).1 = 0 ↔
        (args_size ≠ 0 ∧ options.url ≠ ""
          ∧ (options.path ≠ "" ∨ options.list_only = true)
          ∧ (∀ p, Event.create_directory p false ∉ (main env args_size options fs).2.log)
          ∧ (∀ u, Event.get_string_stream u none ∉ (main env args_size options fs).2.log)
          ∧ (∀ u xml, Event.get_string_stream u (some xml)
                ∈ (main env args_size options fs).2.log →
              select_items options (env.get_items xml (reverse_type options)) ≠ [])
          ∧ (∀ s d, Event.move_file s d false ∉ (main env args_size options fs).2.log))) := by
  obtain ⟨evs, hlog, hkind, _, _, hsome, hnone⟩ :=
    main_prelude_outcome env args_size options { fs := fs, log := [] }
  simp only [List.nil_append] at hlog
  unfold main
  rcases main_from_eq env args_size options { fs := fs, log := [] } with
    ⟨w1, hp, hm⟩ | ⟨items, w1, w2, hp, hl, hm⟩ | ⟨items, w1, flow, w2, hp, hl, hflow, hm⟩
  · rw [hm]
    rw [hp] at hlog hnone
    replace hlog : w1.log = evs := hlog
    refine ⟨Or.inr rfl, by decide, by decide, ⟨fun h => by simp at h, ?_⟩⟩
    rintro ⟨h0, h1, h2, h3, h4, h5, _⟩
    exfalso
    simp only [hlog] at h3 h4 h5
    rcases hnone rfl with h | h | ⟨hp1, hp2⟩ | ⟨p, h⟩ | ⟨u, h⟩ | ⟨u, xml, h, hsel⟩
    · exact h0 h
    · exact h1 h
    · rcases h2 with h2 | h2
      · exact h2 hp1
      · rw [hp2] at h2; cases h2
    · exact h3 p h
    · exact h4 u h
    · exact h5 u xml h hsel
  · rw [hm]
    refine ⟨Or.inr rfl, by decide, by decide, ⟨fun h => by simp at h, ?_⟩⟩
    rintro ⟨_, _, _, _, _, _, h6⟩
    exfalso
    have hext := episode_loop_log_extends env options items w1
    rw [hl] at hext
    obtain ⟨evs2, hlog2, _, _, habort⟩ := hext
    obtain ⟨pre, s, d, hev, _⟩ := habort rfl
    apply h6 s d
    simp only
    rw [hlog2, hev]
    simp
  · rw [hm]
    refine ⟨Or.inl rfl, by decide, by decide, ⟨fun _ => ?_, fun _ => rfl⟩⟩
    rw [hp] at hlog hsome
    replace hlog : w1.log = evs := hlog
    obtain ⟨h0, h1, h2, hne, h3, h4, h5⟩ := hsome items rfl
    have hext := episode_loop_log_extends env options items w1
    rw [hl] at hext
    obtain ⟨evs2, hlog2, hmedia, hnofail, _⟩ := hext
    have hnofail := hnofail hflow
    obtain ⟨evs3, hlog3, hkind3, _⟩ := cleanup_outcome env options w2
    replace hlog2 : w2.log = w1.log ++ evs2 := hlog2
    have hfull : (cleanup env options w2).log = evs ++ evs2 ++ evs3 := by
      rw [hlog3, hlog2, hlog]
    simp only [hfull, List.mem_append]
    refine ⟨h0, h1, h2, ?_, ?_, ?_, ?_⟩
    · rintro p ((h | h) | h)
      · exact h3 p h
      · have := hmedia _ h; cases this
      · rcases hkind3 _ h with ⟨b, hb⟩ | hb <;> cases hb
    · rintro u ((h | h) | h)
      · exact h4 u h
      · have := hmedia _ h; cases this
      · rcases hkind3 _ h with ⟨b, hb⟩ | hb <;> cases hb
    · rintro u xml ((h | h) | h)
      · rw [h5 u xml h]; exact hne
      · have := hmedia _ h; cases this
      · rcases hkind3 _ h with ⟨b, hb⟩ | hb <;> cases hb
    · rintro s d ((h | h) | h)
      · have := hkind _ h; cases this
      · have := hnofail _ h; cases this
      · rcases hkind3 _ h with ⟨b, hb⟩ | hb <;> cases hb

/-! ## The skip policy -/

/-- C2: at an episode where the stop policy does not trigger and whose final
path exists, the iteration leaves the world as it is (same filesystem, same log:
no media fetch, no scratch file, no move, no sidecar, nothing overwritten) and
the loop goes on with the next episode; and a run that reaches the loop with the
stop policy off and every selected episode's final file present returns 0, logs
no downloading event and leaves every file as it was. -/
theorem skip_existing_file (env : Env) (options : Options) :
    (∀ (item : Podcast) (w : World), stop_triggers env options item w.fs = false →
        file_exists env w.fs (file_path options item) = true →
        episode_step env options item w = (Flow.next, w)
        ∧ ∀ rest, episode_loop env options (item :: rest) w = episode_loop env options rest w)
    ∧ (∀ (args_size : Nat) (fs : FS) (items : List Podcast) (w : World),
        main_prelude env args_size options { fs := fs, log := [] } = (some items, w) →
        options.stop_when_file_found = false →
        (∀ item ∈ items, file_exists env fs (file_path options item) = true) →
        (main env args_size options fs).1 = 0
        ∧ (∀ e ∈ (main env args_size options fs).2.log, is_media_effect e = false)
        ∧ (main env args_size options fs).2.fs.files = fs.files) := by
  constructor
  · intro item w hstop hex
    have hs := episode_step_skip env options item w hstop hex
    exact ⟨hs, fun rest => episode_loop_cons_next env options item rest w w hs⟩
  · intro args_size fs items w hp hoff hex
    obtain ⟨evs, hlog, hkind, hfiles, hdirs, _, _⟩ :=
      main_prelude_outcome env args_size options { fs := fs, log := [] }
    rw [hp] at hlog hfiles hdirs
    replace hlog : w.log = evs := by simpa using hlog
    replace hfiles : w.fs.files = fs.files := hfiles
    replace hdirs : ∀ d ∈ fs.dirs, d ∈ w.fs.dirs := hdirs
    have hloop : episode_loop env options items w = (Flow.next, w) :=
      episode_loop_all_exist env options items w hoff
        (fun item hi => file_exists_mono env fs w.fs _ hfiles hdirs (hex item hi))
    have hm : main env args_size options fs = (0, cleanup env options w) := by
      simp [main, main_from, hp, hloop]
    obtain ⟨evs3, hlog3, hkind3, hfiles3⟩ := cleanup_outcome env options w
    rw [hm]
    refine ⟨rfl, ?_, hfiles3.trans hfiles⟩
    intro e he
    replace he : e ∈ (cleanup env options w).log := he
    rw [hlog3, hlog] at he
    rcases List.mem_append.mp he with h | h
    · have := hkind e h
      cases e <;> first | rfl | cases this
    · rcases hkind3 e h with ⟨b, rfl⟩ | rfl <;> rfl

/-- C2 at a run: one episode `a` whose file `p/a.mp3` is already there. -/
theorem skip_existing_file_witness :
    episode_step (sample_env sample_items) sample_options
        { number := 1, title := "a", url := "u1", ext := "mp3", meta := "m1" }
        { fs := { files := [("p/a.mp3", "old")], dirs := ["p"] }, log := [] }
      = (Flow.next, { fs := { files := [("p/a.mp3", "old")], dirs := ["p"] }, log := [] })
    ∧ (main (sample_env [{ number := 1, title := "a", url := "u1", ext := "mp3", meta := "m1" }])
        2 sample_options { files := [("p/a.mp3", "old")], dirs := ["p"] }).1 = 0 :=
  ⟨((skip_existing_file (sample_env sample_items) sample_options).1 _ _
      (by decide) (by decide)).1,
   ((skip_existing_file
      (sample_env [{ number := 1, title := "a", url := "u1", ext := "mp3", meta := "m1" }])
      sample_options).2 2 { files := [("p/a.mp3", "old")], dirs := ["p"] }
      [{ number := 1, title := "a", url := "u1", ext := "mp3", meta := "m1" }]
      { fs := { files := [("p/a.mp3", "old")], dirs := ["p/tmp", "p"] },
        log := [Event.create_directory "p" true, Event.create_directory "p/tmp" true,
                Event.get_string_stream "feed" (some "xml")] }
      (by decide) (by decide) (by decide)).1⟩

/-! ## The stop policy ends the run -/

/-- C3, as stated, fails in two ways.  With the stop string `zzz` the run stops
at the third episode and returns 0, the log shows the first episode's file moved
to `p/tmp/x.mp3`, and no file is at that path when the run ends, because the
second episode used the same path as its scratch file and moved it away.  And
in a list-only run the stop policy is never evaluated: with the stop string `b`
the loop does not break at the episode titled `b` but runs to the end of the
list. -/
theorem stop_policy_counterexample :
    ((main (sample_env clash_items) 2 stop_options clash_fs).1 = 0
      ∧ stop_triggers (sample_env clash_items) stop_options
          { number := 3, title := "zzz", url := "u3", ext := "mp3", meta := "m3" }
          (main (sample_env clash_items) 2 stop_options clash_fs).2.fs = true
      ∧ (main (sample_env clash_items) 2 stop_options clash_fs).2.log
        = [Event.create_directory "p" true, Event.create_directory "p/tmp" true,
           Event.get_string_stream "feed" (some "xml"),
           Event.open_ofstream "p/tmp/tmp/x.mp3" true,
           Event.write_file_stream "u1" "p/tmp/tmp/x.mp3" true,
           Event.move_file "p/tmp/tmp/x.mp3" "p/tmp/x.mp3" true,
           Event.open_ofstream "p/tmp/x.mp3" true,
           Event.write_file_stream "u2" "p/tmp/x.mp3" true,
           Event.move_file "p/tmp/x.mp3" "p/x.mp3" true,
           Event.directory_is_empty "p/tmp" false]
      ∧ file_exists (sample_env clash_items)
          (main (sample_env clash_items) 2 stop_options clash_fs).2.fs "p/tmp/x.mp3" = false)
    ∧ (stop_triggers (sample_env sample_items)
          { sample_options with list_only := true, stop_when_file_found := true,
                                stop_when_file_found_string := "b" }
          { number := 2, title := "b", url := "u2", ext := "mp3", meta := "m2" } empty_fs = true
      ∧ episode_loop (sample_env sample_items)
          { sample_options with list_only := true, stop_when_file_found := true,
                                stop_when_file_found_string := "b" }
          sample_items { fs := empty_fs, log := [] }
        = (Flow.next, { fs := empty_fs, log := [] })) := by
  decide

/-- C3, amended: when the loop reaches an episode (the episodes before it ran
without break or abort) with the stop policy on and the trigger holding there (a
non-empty string is configured and occurs in the base name, or none is
configured and the final path exists), the loop ends in the world in which that
episode was reached, by `break` when the run is not list-only; the run returns
0; after that point the log has no downloading event (no scratch file, fetch,
move or sidecar) and the files are those of that world; and, provided no earlier
episode's scratch path reaches the file of an earlier episode's final path,
every file the run moved is a file at its final path when the run ends.
Conversely the loop breaks only at an episode where the trigger holds. -/
theorem stop_policy_ends_run (env : Env) (options : Options) (args_size : Nat) (fs : FS)
    (pre post : List Podcast) (item : Podcast) (w w1 : World)
    (hprelude : main_prelude env args_size options { fs := fs, log := [] }
      = (some (pre ++ item :: post), w))
    (hreach : episode_loop env options pre w = (Flow.next, w1))
    (hon : options.stop_when_file_found = true)
    (htrig : (options.stop_when_file_found_string ≠ "" ∧
          options.stop_when_file_found_string.data <:+: (base_name options item).data)
        ∨ (options.stop_when_file_found_string = "" ∧
            file_exists env w1.fs (file_path options item) = true)) :
    (episode_loop env options (pre ++ item :: post) w).2 = w1
    ∧ (options.list_only = false →
        episode_loop env options (pre ++ item :: post) w = (Flow.stop, w1))
    ∧ main env args_size options fs = (0, cleanup env options w1)
    ∧ (∃ evs, (main env args_size options fs).2.log = w1.log ++ evs
        ∧ ∀ e ∈ evs, is_media_effect e = false)
    ∧ (main env args_size options fs).2.fs.files = w1.fs.files
    ∧ (scratch_apart env options pre →
        ∀ s d, Event.move_file s d true ∈ (main env args_size options fs).2.log →
          is_file (main env args_size options fs).2.fs (env.resolve d) = true)
    ∧ (∀ items w0 w2, episode_loop env options items w0 = (Flow.stop, w2) →
        ∃ before it after, items = before ++ it :: after
          ∧ episode_loop env options before w0 = (Flow.next, w2)
          ∧ options.stop_when_file_found = true
          ∧ ((options.stop_when_file_found_string ≠ "" ∧
                options.stop_when_file_found_string.data <:+: (base_name options it).data)
              ∨ (options.stop_when_file_found_string = "" ∧
                  file_exists env w2.fs (file_path options it) = true))) := by
  have htr : stop_triggers env options item w1.fs = true :=
    (stop_triggers_iff env options item w1.fs).mpr ⟨hon, htrig⟩
  have happ := episode_loop_append env options pre (item :: post) w w1 hreach
  have hloop : (episode_loop env options (pre ++ item :: post) w).2 = w1
      ∧ (episode_loop env options (pre ++ item :: post) w).1 ≠ Flow.abort
      ∧ (options.list_only = false →
          episode_loop env options (pre ++ item :: post) w = (Flow.stop, w1)) := by
    rw [happ]
    cases hl : options.list_only with
    | true =>
      rw [episode_loop_list_only env options (item :: post) w1 hl]
      exact ⟨rfl, by simp, fun h => by cases h⟩
    | false =>
      have hs : episode_step env options item w1 = (Flow.stop, w1) := by
        simp [episode_step, hl, htr]
      rw [episode_loop_cons_stop env options item post w1 w1 hs]
      exact ⟨rfl, by simp, fun _ => rfl⟩
  obtain ⟨h2, hflow, hstop⟩ := hloop
  have hm : main env args_size options fs = (0, cleanup env options w1) := by
    rcases hl : episode_loop env options (pre ++ item :: post) w with ⟨flow, w2⟩
    rw [hl] at h2 hflow
    replace h2 : w2 = w1 := h2
    subst h2
    cases flow with
    | abort => exact absurd rfl hflow
    | next => simp [main, main_from, hprelude, hl]
    | stop => simp [main, main_from, hprelude, hl]
  obtain ⟨evs3, hlog3, hkind3, hfiles3⟩ := cleanup_outcome env options w1
  refine ⟨h2, hstop, hm, ?_, ?_, ?_, ?_⟩
  · rw [hm]
    refine ⟨evs3, hlog3, ?_⟩
    intro e he
    rcases hkind3 e he with ⟨b, rfl⟩ | rfl <;> rfl
  · rw [hm]; exact hfiles3
  · intro hsep
    have hmoved : moved_files_present env options pre (cleanup env options w1) := by
      apply cleanup_moved_files
      have hw := main_prelude_moved_files env args_size options fs pre
      rw [hprelude] at hw
      have := episode_loop_moved_files env options pre pre w (fun i hi => hi) hsep hw
      rw [hreach] at this
      exact this
    rw [hm]
    intro s d hmem
    exact (hmoved s d hmem).1
  · intro items w0 w2 hstopped
    obtain ⟨before, it, after, hitems, hbefore, _, htrig2⟩ :=
      episode_loop_stop_inv env options items w0 w2 hstopped
    exact ⟨before, it, after, hitems, hbefore,
      (stop_triggers_iff env options it w2.fs).mp htrig2⟩

/-- C3, amended, at a run: episode `a` is downloaded, the stop string `b` occurs
in the title of the second episode, the later episodes are never reached, and
the file moved for `a` is at `p/a.mp3`. -/
theorem stop_policy_ends_run_witness :
    main (sample_env sample_items) 2
        { sample_options with stop_when_file_found := true, stop_when_file_found_string := "b" }
        empty_fs
      = (0, cleanup (sample_env sample_items) sample_options
          { fs := { files := [("p/a.mp3", "data")], dirs := ["p/tmp", "p"] },
            log := [Event.create_directory "p" true, Event.create_directory "p/tmp" true,
                    Event.get_string_stream "feed" (some "xml"),
                    Event.open_ofstream "p/tmp/a.mp3" true,
                    Event.write_file_stream "u1" "p/tmp/a.mp3" true,
                    Event.move_file "p/tmp/a.mp3" "p/a.mp3" true] })
    ∧ is_file
        (main (sample_env sample_items) 2
          { sample_options with stop_when_file_found := true,
                                stop_when_file_found_string := "b" }
          empty_fs).2.fs "p/a.mp3" = true :=
  ⟨(stop_policy_ends_run (sample_env sample_items)
      { sample_options with stop_when_file_found := true, stop_when_file_found_string := "b" }
      2 empty_fs
      [{ number := 1, title := "a", url := "u1", ext := "mp3", meta := "m1" }]
      [{ number := 3, title := "c", url := "u3", ext := "mp3", meta := "m3" },
       { number := 4, title := "d", url := "u4", ext := "mp3", meta := "m4" },
       { number := 5, title := "e", url := "u5", ext := "mp3", meta := "m5" }]
      { number := 2, title := "b", url := "u2", ext := "mp3", meta := "m2" }
      { fs := { files := [], dirs := ["p/tmp", "p"] },
        log := [Event.create_directory "p" true, Event.create_directory "p/tmp" true,
                Event.get_string_stream "feed" (some "xml")] }
      { fs := { files := [("p/a.mp3", "data")], dirs := ["p/tmp", "p"] },
        log := [Event.create_directory "p" true, Event.create_directory "p/tmp" true,
                Event.get_string_stream "feed" (some "xml"),
                Event.open_ofstream "p/tmp/a.mp3" true,
                Event.write_file_stream "u1" "p/tmp/a.mp3" true,
                Event.move_file "p/tmp/a.mp3" "p/a.mp3" true] }
      (by decide) (by decide) (by decide) (by decide)).2.2.1,
   (stop_policy_ends_run (sample_env sample_items)
      { sample_options with stop_when_file_found := true, stop_when_file_found_string := "b" }
      2 empty_fs
      [{ number := 1, title := "a", url := "u1", ext := "mp3", meta := "m1" }]
      [{ number := 3, title := "c", url := "u3", ext := "mp3", meta := "m3" },
       { number := 4, title := "d", url := "u4", ext := "mp3", meta := "m4" },
       { number := 5, title := "e", url := "u5", ext := "mp3", meta := "m5" }]
      { number := 2, title := "b", url := "u2", ext := "mp3", meta := "m2" }
      { fs := { files := [], dirs := ["p/tmp", "p"] },
        log := [Event.create_directory "p" true, Event.create_directory "p/tmp" true,
                Event.get_string_stream "feed" (some "xml")] }
      { fs := { files := [("p/a.mp3", "data")], dirs := ["p/tmp", "p"] },
        log := [Event.create_directory "p" true, Event.create_directory "p/tmp" true,
                Event.get_string_stream "feed" (some "xml"),
                Event.open_ofstream "p/tmp/a.mp3" true,
                Event.write_file_stream "u1" "p/tmp/a.mp3" true,
                Event.move_file "p/tmp/a.mp3" "p/a.mp3" true] }
      (by decide) (by decide) (by decide) (by decide)).2.2.2.2.2.1
      (by unfold scratch_apart; decide) "p/tmp/a.mp3" "p/a.mp3" (by decide)⟩

/-! ## A failed move aborts the run -/

theorem main_zero_world (env : Env) (args_size : Nat) (options : Options) (fs : FS)
    (h0 : (main env args_size options fs).1 = 0) :
    (main env args_size options fs).2
        = cleanup env options (world_after_loop env args_size options fs)
    ∧ ∀ e ∈ (world_after_loop env args_size options fs).log,
        is_prelude_event e = true ∨ is_media_effect e = true := by
  obtain ⟨evs, hlog, hkind, _⟩ :=
    main_prelude_outcome env args_size options { fs := fs, log := [] }
  unfold main at h0 ⊢
  rcases main_from_eq env args_size options { fs := fs, log := [] } with
    ⟨w1, hp, hm⟩ | ⟨items, w1, w2, hp, hl, hm⟩ | ⟨items, w1, flow, w2, hp, hl, hflow, hm⟩
  · rw [hm] at h0; cases h0
  · rw [hm] at h0; cases h0
  · rw [hp] at hlog
    replace hlog : w1.log = evs := by simpa using hlog
    have hwl : world_after_loop env args_size options fs = w2 := by
      simp [world_after_loop, hp, hl]
    rw [hm, hwl]
    refine ⟨rfl, ?_⟩
    have hext := episode_loop_log_extends env options items w1
    rw [hl] at hext
    obtain ⟨evs2, hlog2, hmedia, _, _⟩ := hext
    replace hlog2 : w2.log = w1.log ++ evs2 := hlog2
    intro e he
    rw [hlog2, hlog] at he
    rcases List.mem_append.mp he with h | h
    · exact Or.inl (hkind e h)
    · exact Or.inr (hmedia e h)

/-- C5, as stated, fails: on a destination whose scratch directory holds a
directory `p/tmp/tmp`, the run downloads and moves all five episodes and returns
0; no file remains inside `p/tmp`, yet `p/tmp` is not empty, it is not deleted
and it is still there. -/
theorem scratch_directory_counterexample :
    (main (sample_env sample_items) 2 sample_options clash_fs).1 = 0
    ∧ (main (sample_env sample_items) 2 sample_options clash_fs).2.fs
      = { files := [("p/e.mp3", "data"), ("p/d.mp3", "data"), ("p/c.mp3", "data"),
                    ("p/b.mp3", "data"), ("p/a.mp3", "data")],
          dirs := ["p", "p/tmp", "p/tmp/tmp"] }
    ∧ (∀ f ∈ (main (sample_env sample_items) 2 sample_options clash_fs).2.fs.files,
        in_directory "p/tmp" f.1 = false)
    ∧ "p/tmp" ∈ (main (sample_env sample_items) 2 sample_options clash_fs).2.fs.dirs
    ∧ Event.delete_directory "p/tmp"
        ∉ (main (sample_env sample_items) 2 sample_options clash_fs).2.log := by
  decide

/-- C5, amended: on a run that returns 0, that is, one that leaves the episode
loop without a fatal abort, the world at the end is the world on leaving the
loop after the cleanup of lines 261-263: the scratch directory is deleted if and
only if it is empty at that point; when it is empty it is absent afterwards and
the files are untouched; when it is not, the filesystem is left as it is; so it
is absent when nothing, neither a file nor a directory, remains inside, and left
with its contents when a scratch file remains. -/
theorem scratch_directory_cleanup (env : Env) (args_size : Nat) (options : Options) (fs : FS)
    (h0 : (main env args_size options fs).1 = 0) :
    (main env args_size options fs).2
        = cleanup env options (world_after_loop env args_size options fs)
    ∧ (Event.delete_directory (temp_path options.path) ∈ (main env args_size options fs).2.log
        ↔ directory_is_empty env (world_after_loop env args_size options fs).fs
            (temp_path options.path) = true)
    ∧ (directory_is_empty env (world_after_loop env args_size options fs).fs
          (temp_path options.path) = true →
        env.resolve (temp_path options.path) ∉ (main env args_size options fs).2.fs.dirs
        ∧ (main env args_size options fs).2.fs.files
            = (world_after_loop env args_size options fs).fs.files)
    ∧ (directory_is_empty env (world_after_loop env args_size options fs).fs
          (temp_path options.path) = false →
        (main env args_size options fs).2.fs = (world_after_loop env args_size options fs).fs)
    ∧ ((∀ f ∈ (world_after_loop env args_size options fs).fs.files,
          in_directory (env.resolve (temp_path options.path)) f.1 = false) →
        (∀ x ∈ (world_after_loop env args_size options fs).fs.dirs,
          in_directory (env.resolve (temp_path options.path)) x = false) →
        env.resolve (temp_path options.path) ∉ (main env args_size options fs).2.fs.dirs)
    ∧ (∀ f ∈ (world_after_loop env args_size options fs).fs.files,
        in_directory (env.resolve (temp_path options.path)) f.1 = true →
        (main env args_size options fs).2.fs = (world_after_loop env args_size options fs).fs
        ∧ f ∈ (main env args_size options fs).2.fs.files) := by
  obtain ⟨hw, hkinds⟩ := main_zero_world env args_size options fs h0
  rw [hw]
  generalize world_after_loop env args_size options fs = wl at hkinds ⊢
  have hnodel : Event.delete_directory (temp_path options.path) ∉ wl.log := by
    intro hm
    rcases hkinds _ hm with h | h <;> cases h
  have hgone : directory_is_empty env wl.fs (temp_path options.path) = true →
      env.resolve (temp_path options.path) ∉ (cleanup env options wl).fs.dirs := by
    intro he
    simp [cleanup, he, delete_directory, remove_directory]
  have hkeep : directory_is_empty env wl.fs (temp_path options.path) = false →
      (cleanup env options wl).fs = wl.fs := by
    intro he
    simp [cleanup, he, World.record]
  refine ⟨rfl, ?_, ?_, hkeep, ?_, ?_⟩
  · cases he : directory_is_empty env wl.fs (temp_path options.path) with
    | true => simp [cleanup, he]
    | false =>
      simp only [cleanup, he, World.record, List.mem_append, List.mem_singleton, reduceCtorEq,
        or_false, Bool.false_eq_true, if_false, iff_false]
      exact hnodel
  · intro he
    exact ⟨hgone he, (cleanup_outcome env options wl).choose_spec.2.2⟩
  · intro hfiles hdirs
    cases he : directory_is_empty env wl.fs (temp_path options.path) with
    | true => exact hgone he
    | false =>
      rw [hkeep he]
      intro hmem
      have : directory_is_empty env wl.fs (temp_path options.path) = true := by
        simp only [directory_is_empty, is_empty_directory, Bool.and_eq_true, List.all_eq_true,
          Bool.not_eq_true', List.contains_eq_any_beq, List.any_eq_true, beq_iff_eq]
        exact ⟨⟨⟨_, hmem, rfl⟩, hfiles⟩, hdirs⟩
      rw [he] at this
      cases this
  · intro f hf hin
    have he : directory_is_empty env wl.fs (temp_path options.path) = false := by
      cases hd : directory_is_empty env wl.fs (temp_path options.path) with
      | false => rfl
      | true =>
        simp only [directory_is_empty, is_empty_directory, Bool.and_eq_true, List.all_eq_true,
          Bool.not_eq_true'] at hd
        have := hd.1.2 f hf
        rw [hin] at this
        cases this
    rw [hkeep he]
    exact ⟨rfl, hf⟩

/-- C5, amended, at a run: all five sample episodes are downloaded and moved,
nothing remains inside the scratch directory, it is deleted and absent. -/
theorem scratch_directory_cleanup_witness :
    Event.delete_directory "p/tmp"
        ∈ (main (sample_env sample_items) 2 sample_options empty_fs).2.log
    ∧ "p/tmp" ∉ (main (sample_env sample_items) 2 sample_options empty_fs).2.fs.dirs :=
  ⟨(scratch_directory_cleanup (sample_env sample_items) 2 sample_options empty_fs
      (by decide)).2.1.mpr (by decide),
   (scratch_directory_cleanup (sample_env sample_items) 2 sample_options empty_fs
      (by decide)).2.2.2.2.1 (by decide) (by decide)⟩

/-! ## Range selection and naming -/

/-- C6: the list handed to the loop is the parsed list when no range is
configured, and otherwise the concatenation, in the order of the ranges, of the
per-range subsets, each the episodes of the full list whose number lies in the
range, in the list's order (a sublist of it); so an episode occurs as many times
as it occurs in the list times the number of ranges holding its number (k times
for an episode that is once in the list), a range matching nothing contributes
the empty list, and the ranges {1,1},{3,3} on five episodes numbered 1..5 give
number 1 then number 3. -/
theorem range_selection (options : Options) (items : List Podcast) :
    select_items options items
      = (if options.episodes = [] then items
         else (options.episodes.map
                (fun r => items.filter (fun p => in_range r p.number))).flatten)
    ∧ (∀ r : Range, (get_subset items r.start r.end_).Sublist items)
    ∧ (∀ p, (collect_subsets items options.episodes).count p
        = items.count p * (options.episodes.filter (fun r => in_range r p.number)).length)
    ∧ (∀ p, items.count p = 1 → options.episodes ≠ [] →
        (select_items options items).count p
          = (options.episodes.filter (fun r => in_range r p.number)).length)
    ∧ (∀ r : Range, (∀ p ∈ items, in_range r p.number = false) →
        get_subset items r.start r.end_ = [])
    ∧ (select_items { sample_options with episodes := [⟨1, some 1⟩, ⟨3, some 3⟩] } sample_items).map
        Podcast.number = [1, 3] := by
  have hsel : options.episodes ≠ [] →
      select_items options items = collect_subsets items options.episodes := by
    intro h
    have : options.episodes.length > 0 := List.length_pos.mpr h
    simp [select_items, this]
  refine ⟨?_, ?_, fun p => count_collect_subsets items p options.episodes, ?_, ?_, by decide⟩
  · by_cases h : options.episodes = []
    · simp [select_items, h]
    · rw [hsel h, if_neg h, collect_subsets_eq_join]
      rfl
  · intro r
    rw [get_subset_eq_filter]
    exact List.filter_sublist _
  · intro p h1 hne
    rw [hsel hne, count_collect_subsets, h1, Nat.one_mul]
  · intro r h
    rw [get_subset_eq_filter, List.filter_eq_nil_iff]
    intro p hp
    rw [h p hp]
    simp

/-- C6 at the sample list: episode 2 lies in both ranges 1-2 and 2-3 and occurs
twice; the range 7-9 matches nothing. -/
theorem range_selection_witness :
    (select_items { sample_options with episodes := [⟨1, some 2⟩, ⟨2, some 3⟩] }
        sample_items).count
        { number := 2, title := "b", url := "u2", ext := "mp3", meta := "m2" } = 2
    ∧ get_subset sample_items 7 (some 9) = [] :=
  ⟨(range_selection { sample_options with episodes := [⟨1, some 2⟩, ⟨2, some 3⟩] }
      sample_items).2.2.2.1 _ (by decide) (by decide),
   (range_selection sample_options sample_items).2.2.2.2.1 ⟨7, some 9⟩ (by decide)⟩

/-- C7, as stated, fails: with the append-number option and width 3 the base
name of episode 1 titled `a` is `001. a`, which is none of the title, the padded
number, or the padded number concatenated with the title. -/
theorem base_name_counterexample :
    base_name { sample_options with append_episode_nr := true, zero_padded_episode_nr := 3 }
        { number := 1, title := "a", url := "u1", ext := "mp3", meta := "m1" } = "001. a"
    ∧ ¬ (base_name { sample_options with append_episode_nr := true, zero_padded_episode_nr := 3 }
          { number := 1, title := "a", url := "u1", ext := "mp3", meta := "m1" } = "a"
        ∨ base_name { sample_options with append_episode_nr := true, zero_padded_episode_nr := 3 }
          { number := 1, title := "a", url := "u1", ext := "mp3", meta := "m1" }
            = get_zero_padded_number_string 1 3
        ∨ base_name { sample_options with append_episode_nr := true, zero_padded_episode_nr := 3 }
          { number := 1, title := "a", url := "u1", ext := "mp3", meta := "m1" }
            = get_zero_padded_number_string 1 3 ++ "a") := by
  decide

/-- C7, amended: the base name used for the final, scratch and sidecar paths is
the title unmodified when neither number option is set, the number text alone
with the short-names option, and the number text, the separator `. ` and the
title with the append-number option (short-names not set); the number text is
the zero-padded number at the configured width when that width is positive and
the plain decimal number at width 0, where there is nothing to pad. -/
theorem base_name_cases (options : Options) (item : Podcast) :
    (options.short_names = false → options.append_episode_nr = false →
        base_name options item = item.title)
    ∧ (options.short_names = true → base_name options item = index_str options item)
    ∧ (options.short_names = false → options.append_episode_nr = true →
        base_name options item = index_str options item ++ ". " ++ item.title)
    ∧ (0 < options.zero_padded_episode_nr → index_str options item
        = get_zero_padded_number_string item.number options.zero_padded_episode_nr)
    ∧ (options.zero_padded_episode_nr = 0 → index_str options item = toString item.number)
    ∧ file_path options item = options.path ++ "/" ++ base_name options item ++ "." ++ item.ext
    ∧ temp_file_path options item
        = options.path ++ "/tmp" ++ "/" ++ base_name options item ++ "." ++ item.ext
    ∧ file_meta_path options item
        = options.path ++ "/" ++ base_name options item ++ "." ++ "txt" := by
  refine ⟨?_, ?_, ?_, ?_, ?_, rfl, rfl, rfl⟩
  · intro h1 h2
    simp [base_name, h1, h2]
  · intro h1
    simp [base_name, h1]
  · intro h1 h2
    simp [base_name, h1, h2]
  · intro h
    simp [index_str, h]
  · intro h
    simp [index_str, h]

/-- C7, amended, at episode 7 titled `t`: `007` with short names and width 3,
`007. t` with the appended number. -/
theorem base_name_cases_witness :
    base_name { sample_options with short_names := true, zero_padded_episode_nr := 3 }
        { number := 7, title := "t", url := "u", ext := "mp3", meta := "" } = "007"
    ∧ base_name { sample_options with append_episode_nr := true, zero_padded_episode_nr := 3 }
        { number := 7, title := "t", url := "u", ext := "mp3", meta := "" } = "007. t"
    ∧ base_name sample_options
        { number := 7, title := "t", url := "u", ext := "mp3", meta := "" } = "t" :=
  ⟨((base_name_cases { sample_options with short_names := true, zero_padded_episode_nr := 3 }
      { number := 7, title := "t", url := "u", ext := "mp3", meta := "" }).2.1
      (by decide)).trans (by decide),
   ((base_name_cases { sample_options with append_episode_nr := true, zero_padded_episode_nr := 3 }
      { number := 7, title := "t", url := "u", ext := "mp3", meta := "" }).2.2.1
      (by decide) (by decide)).trans (by decide),
   (base_name_cases sample_options
      { number := 7, title := "t", url := "u", ext := "mp3", meta := "" }).1
      (by decide) (by decide)⟩

/-! ## Runs where the code departs from its help text -/

/-- C8: for an episode with the extension `txt` and the metadata option, the
sidecar path is the final media path; the run moves the streamed bytes `data`
there, then writes the sidecar to the same path, and the media file ends with
the metadata text as its content. -/
theorem sidecar_overwrites_media :
    file_meta_path { sample_options with add_meta := true }
        { number := 1, title := "a", url := "u1", ext := "txt", meta := "notes" }
      = file_path { sample_options with add_meta := true }
        { number := 1, title := "a", url := "u1", ext := "txt", meta := "notes" }
    ∧ main (sample_env txt_items) 2 { sample_options with add_meta := true } empty_fs
      = (0, { fs := { files := [("p/a.txt", "notes\n")], dirs := ["p"] },
              log := [Event.create_directory "p" true, Event.create_directory "p/tmp" true,
                      Event.get_string_stream "feed" (some "xml"),
                      Event.open_ofstream "p/tmp/a.txt" true,
                      Event.write_file_stream "u1" "p/tmp/a.txt" true,
                      Event.move_file "p/tmp/a.txt" "p/a.txt" true,
                      Event.write_meta "p/a.txt" true,
                      Event.directory_is_empty "p/tmp" true,
                      Event.delete_directory "p/tmp"] })
    ∧ read_file
        (main (sample_env txt_items) 2 { sample_options with add_meta := true } empty_fs).2.fs
        "p/a.txt" = some "notes\n" := by
  decide

/-- C9: a list-only run on a destination whose scratch directory `p/tmp` exists
and is empty returns 0 and has deleted that directory: the filesystem is not
left as it was. -/
theorem list_only_deletes_empty_scratch :
    (main (sample_env sample_items) 2 { sample_options with list_only := true }
        empty_scratch_fs).1 = 0
    ∧ (main (sample_env sample_items) 2 { sample_options with list_only := true }
        empty_scratch_fs).2.log
      = [Event.get_string_stream "feed" (some "xml"),
         Event.directory_is_empty "p/tmp" true,
         Event.delete_directory "p/tmp"]
    ∧ (main (sample_env sample_items) 2 { sample_options with list_only := true }
        empty_scratch_fs).2.fs = { files := [], dirs := ["p"] }
    ∧ (main (sample_env sample_items) 2 { sample_options with list_only := true }
        empty_scratch_fs).2.fs ≠ empty_scratch_fs := by
  decide

/-- C10: with the stop policy on and the search string `b`, the loop breaks at
the episode titled `b` although no file is at its final path `p/b.mp3`: the
episode is not downloaded and the run returns 0 after the first episode. -/
theorem stop_string_ignores_existence :
    file_exists (sample_env sample_items) { files := [], dirs := ["p", "p/tmp"] }
        (file_path
          { sample_options with stop_when_file_found := true, stop_when_file_found_string := "b" }
          { number := 2, title := "b", url := "u2", ext := "mp3", meta := "m2" }) = false
    ∧ episode_step (sample_env sample_items)
        { sample_options with stop_when_file_found := true, stop_when_file_found_string := "b" }
        { number := 2, title := "b", url := "u2", ext := "mp3", meta := "m2" }
        { fs := { files := [], dirs := ["p", "p/tmp"] }, log := [] }
      = (Flow.stop, { fs := { files := [], dirs := ["p", "p/tmp"] }, log := [] })
    ∧ main (sample_env sample_items) 2
        { sample_options with stop_when_file_found := true, stop_when_file_found_string := "b" }
        empty_fs
      = (0, { fs := { files := [("p/a.mp3", "data")], dirs := ["p"] },
              log := [Event.create_directory "p" true, Event.create_directory "p/tmp" true,
                      Event.get_string_stream "feed" (some "xml"),
                      Event.open_ofstream "p/tmp/a.mp3" true,
                      Event.write_file_stream "u1" "p/tmp/a.mp3" true,
                      Event.move_file "p/tmp/a.mp3" "p/a.mp3" true,
                      Event.directory_is_empty "p/tmp" true,
                      Event.delete_directory "p/tmp"] }) := by
  decide

end Poddl
